import Mathlib

/-!
Verification of aws-s3: a shallow embedding of `cmd/aws-s3/client.go` and `cmd/aws-s3/main.go`

The development has two layers.

* `client.go`: the `S3Client` value, its lazily built session and the paging loop of
  `S3Client.List`, over an SDK whose calls (`NewSession`, `ListObjects`) are parameters.
* `main.go`: flag resolution, the usage checks, the command dispatch and the six command
  handlers, over a `World` that answers every call leaving the process (environment, local
  files, the four methods of the storage client).  A run is the trace of the calls made and
  the lines written, with the exit code.
-/

namespace AwsS3

/-! ## client.go -/

/-- Fields of `aws.Config` that `configProvider` sets. -/
structure Config where
  Credentials : Option (String × String)
  Region : String
  HTTPTimeout : Nat
deriving DecidableEq, Repr

/-- An SDK session: it remembers the configuration it was built from. -/
structure Session where
  config : Config
deriving DecidableEq, Repr

/-- The struct `S3Client`.  Durations are in nanoseconds; the mutex has no content in a
sequential run and is left out. -/
structure S3Client where
  region : String
  httpTimeout : Nat
  accessKeyID : String
  secretAccessKey : String
  awsConfProvider : Option Session
deriving DecidableEq, Repr

/-- The constant `time.Hour`, in nanoseconds. -/
def Hour : Nat := 3600000000000

/-- Function `NewS3Client(region, opts...)`: the options are applied in order. -/
def NewS3Client (region : String) (opts : List (S3Client → S3Client)) : S3Client :=
  opts.foldl (fun c o => o c)
    { region := region, httpTimeout := 2 * Hour, accessKeyID := "", secretAccessKey := "",
      awsConfProvider := none }

/-- Function `WithCredentials(accessKeyID, secretAccessKey)`: the option that sets both
credential fields. -/
def WithCredentials (accessKeyID secretAccessKey : String) : S3Client → S3Client :=
  fun c => { c with accessKeyID := accessKeyID, secretAccessKey := secretAccessKey }

/-- Type `awss3.ListObjectsInput`, with the fields `List` sets; `Marker` is a pointer that
may be nil. -/
structure ListObjectsInput where
  Bucket : String
  Prefix : String
  Marker : Option String
deriving DecidableEq, Repr

/-- Type `awss3.ListObjectsOutput`, with the fields `List` reads. -/
structure ListObjectsOutput where
  Contents : List String
  IsTruncated : Bool
deriving DecidableEq, Repr

/-- The SDK calls used by `List`.  `ListObjects` receives the number of page requests issued
before it, so that a store may answer the same request differently over time. -/
structure SDK where
  NewSession : Config → Except String Session
  ListObjects : Session → Nat → ListObjectsInput → Except String ListObjectsOutput

/-- Method `(c *S3Client) configProvider()`: the session is built on first use and kept; a
failed construction is returned and not kept. -/
def S3Client.configProvider (sdk : SDK) (c : S3Client) : Except String Session × S3Client :=
  match c.awsConfProvider with
  | some p => (.ok p, c)
  | none =>
    let creds : Option (String × String) :=
      if c.accessKeyID ≠ "" ∧ c.secretAccessKey ≠ "" then
        some (c.accessKeyID, c.secretAccessKey)
      else none
    match sdk.NewSession
        { Credentials := creds, Region := c.region, HTTPTimeout := c.httpTimeout } with
    | .error e => (.error e, c)
    | .ok sess => (.ok sess, { c with awsConfProvider := some sess })

/-- How a call of `List` ends: it returns keys, returns an error, stops on the run-time
error of `keys[len(keys)-1]` over an empty slice, or is still looping when the fuel of the
model is spent. -/
inductive ListOutcome where
  | ok (keys : List String)
  | error (e : String)
  | indexOutOfRange
  | outOfFuel
deriving DecidableEq, Repr

/-- Result of running `List`: the outcome and the page requests issued, in order. -/
structure ListRun where
  outcome : ListOutcome
  requests : List ListObjectsInput
deriving DecidableEq, Repr

/-- The `for` loop of `List` (client.go lines 69-84).  `n` counts the requests already
issued, `keys` is the slice accumulated so far and `loi` the request to send next. -/
def listLoop (ListObjects : Nat → ListObjectsInput → Except String ListObjectsOutput) :
    Nat → Nat → ListObjectsInput → List String → ListRun
  | 0, _, _, _ => { outcome := .outOfFuel, requests := [] }
  | fuel + 1, n, loi, keys =>
    match ListObjects n loi with
    | .error e => { outcome := .error e, requests := [loi] }
    | .ok res =>
      let keys := keys ++ res.Contents
      if !res.IsTruncated then
        { outcome := .ok keys, requests := [loi] }
      else
        match keys.getLast? with
        | none => { outcome := .indexOutOfRange, requests := [loi] }
        | some last =>
          let r := listLoop ListObjects fuel (n + 1) { loi with Marker := some last } keys
          { r with requests := loi :: r.requests }

/-- Method `(c *S3Client) List(ctx, bucket, prefix)` (client.go lines 54-87): the session is
obtained first and its failure returned; then the paging loop runs from an empty slice and
a request without marker. -/
def S3Client_List (sdk : SDK) (c : S3Client) (bucket pfx : String) (fuel : Nat) :
    ListRun × S3Client :=
  match c.configProvider sdk with
  | (.error e, c) => ({ outcome := .error e, requests := [] }, c)
  | (.ok cfgProvider, c) =>
    (listLoop (sdk.ListObjects cfgProvider) fuel 0
      { Bucket := bucket, Prefix := pfx, Marker := none } [], c)

/-! ### The store behind `ListObjects` -/

/-- Keys of a listing that come after the marker, in listing order; a request without a
marker starts at the first key. -/
def keysAfter (marker : Option String) (objs : List String) : List String :=
  match marker with
  | none => objs
  | some m => (objs.dropWhile (fun k => k != m)).drop 1

/-- Keys of the bucket under the given prefix, in the listing order of the store. -/
def listing (contents : String → List String) (bucket pfx : String) : List String :=
  (contents bucket).filter (fun k => pfx.data.isPrefixOf k.data)

/-- A store that pages: request number `n` is answered with the next `pageSize n loi` keys
after the marker of the request, flagged truncated exactly when keys remain after them. -/
def pagedStore (contents : String → List String) (pageSize : Nat → ListObjectsInput → Nat) :
    Nat → ListObjectsInput → Except String ListObjectsOutput :=
  fun n loi =>
    let rest := keysAfter loi.Marker (listing contents loi.Bucket loi.Prefix)
    .ok { Contents := rest.take (pageSize n loi),
          IsTruncated := decide (pageSize n loi < rest.length) }

/-- Position of a key in the listing order of a bucket (its length for a foreign key). -/
def rank (objs : List String) (k : String) : Nat := objs.indexOf k

/-- A key lies strictly after the marker of a request: it is a key of the bucket, and it
comes later than the marker in listing order when the request carries one. -/
def strictlyAfter (objs : List String) (marker : Option String) (k : String) : Prop :=
  k ∈ objs ∧ ∀ m, marker = some m → rank objs m < rank objs k

/-- Number of leading positions of the listing order that a marker rules out: none without
a marker, up to and including the marker otherwise. -/
def markerRank (objs : List String) (marker : Option String) : Nat :=
  match marker with
  | none => 0
  | some m => rank objs m + 1

/-! ## main.go -/

/-- A Go `error` value: `none` is `nil`, `some msg` is an error whose text is `msg`. -/
abbrev GoError := Option String

/-- What a run does that is visible outside the process, in order of occurrence: text
written to the two output streams, a call of `flag.Usage`, the construction of the storage
client, calls of its four methods and the local file operations.  Bodies are byte lists. -/
inductive Event where
  | stderr (s : String)
  | stdout (s : String)
  | usage
  | newS3Client (c : S3Client)
  | clientList (bucket pfx : String)
  | clientOpen (bucket key : String)
  | clientUpload (bucket key : String) (body : List Nat)
  | clientDelete (bucket key : String)
  | osOpen (name : String)
  | osCreate (name : String)
  | ioCopy (dst : String) (body : List Nat)
  | copyStdout (body : List Nat)
deriving DecidableEq, Repr

/-- A run of a handler or of `main`: its trace and `some n` when it ended in `os.Exit(n)`,
`none` when the function returned. -/
structure Run where
  trace : List Event
  exit : Option Nat
deriving DecidableEq, Repr

/-- Exit code of the process: the argument of `os.Exit`, or 0 when `main` returns. -/
def Run.exitCode (r : Run) : Nat := r.exit.getD 0

/-- Everything outside the process.  The calls made once per item of a loop receive the
position of the item, so that the same key or path may succeed at one position and fail at
another; every pattern of per-item outcomes is some `World`.  The methods of the storage
client are taken at their results (a value or an error); the deferred `Close` calls write
nothing and are not traced. -/
structure World where
  environ : String → Option String
  stdin : List Nat
  clientList : S3Client → String → String → Except String (List String)
  clientOpen : S3Client → Nat → String → String → Except String (List Nat)
  clientUpload : S3Client → Nat → String → String → List Nat → GoError
  clientDelete : S3Client → Nat → String → String → GoError
  osOpen : Nat → String → Except String (List Nat)
  osCreate : Nat → String → GoError
  ioCopy : Nat → String → List Nat → GoError
  copyStdout : List Nat → GoError

/-- Function `os.Getenv`: the value of the variable, empty when it is not set. -/
def Getenv (w : World) (name : String) : String := (w.environ name).getD ""

/-- Function `path.Base` of the Go standard library: "." for the empty path; otherwise trailing
slashes are stripped, then everything up to the last slash; "/" when nothing is left. -/
def pathBase (path : String) : String :=
  if path = "" then "."
  else
    let cs := (path.data.reverse.dropWhile (fun c => c == '/')).reverse
    let cs := (cs.reverse.takeWhile (fun c => c != '/')).reverse
    if cs = [] then "/" else String.mk cs

/-- Function `flag.Arg(i)`: the i-th positional argument, empty when there is none. -/
def Arg (args : List String) (i : Nat) : String := args.getD i ""

/-- Handler `cmdLs` (main.go lines 158-168): the keys are printed one per line, or the
error of the listing is reported and the process exits with code 1. -/
def cmdLs (w : World) (client : S3Client) (bucket pfx : String) : Run :=
  match w.clientList client bucket pfx with
  | .error err =>
    { trace := [.clientList bucket pfx, .stderr ("error listing objects: " ++ err ++ "\n")],
      exit := some 1 }
  | .ok keys =>
    { trace := .clientList bucket pfx :: keys.map (fun key => .stdout (key ++ "\n")),
      exit := none }

/-- The line `printDownloaded` writes. -/
def downloadedLine (count : Nat) : String := "Downloaded " ++ toString count ++ " object(s)\n"

/-- The line `printUploaded` writes. -/
def uploadedLine (count : Nat) : String := "Uploaded " ++ toString count ++ " file(s)\n"

/-- The line `printDeleted` writes. -/
def deletedLine (count : Nat) : String := "Deleted " ++ toString count ++ " object(s)\n"

/-- The line written for an item whose function literal returned an error. -/
def itemErrorLine (item err : String) : String := "[" ++ item ++ "] " ++ err ++ "\n"

/-- The function literal `cmdDownload` runs for the key at position `i` (lines 178-198):
its trace, the counter after it and the error it returns. -/
def downloadOne (w : World) (client : S3Client) (bucket : String) (i : Nat) (key : String)
    (count : Nat) : List Event × Nat × GoError :=
  match w.clientOpen client i bucket key with
  | .error err => ([.clientOpen bucket key], count, some ("error opening object: " ++ err))
  | .ok r =>
    match w.osCreate i key with
    | some err =>
      ([.clientOpen bucket key, .osCreate key], count,
        some ("error opening file for writing: " ++ err))
    | none =>
      match w.ioCopy i key r with
      | some err =>
        ([.clientOpen bucket key, .osCreate key, .ioCopy key r], count,
          some ("error downloading object: " ++ err))
      | none => ([.clientOpen bucket key, .osCreate key, .ioCopy key r], count + 1, none)

/-- The `for` loop of `cmdDownload` from position `i` on: its trace and the final counter. -/
def downloadLoop (w : World) (client : S3Client) (bucket : String) :
    Nat → List String → Nat → List Event × Nat
  | _, [], count => ([], count)
  | i, key :: keys, count =>
    match downloadOne w client bucket i key count with
    | (evs, count, some err) =>
      let r := downloadLoop w client bucket (i + 1) keys count
      (evs ++ .stderr (itemErrorLine key err) :: r.1, r.2)
    | (evs, count, none) =>
      let r := downloadLoop w client bucket (i + 1) keys count
      (evs ++ r.1, r.2)

/-- Handler `cmdDownload` (lines 170-202); the deferred `printDownloaded` runs when it returns. -/
def cmdDownload (w : World) (client : S3Client) (bucket : String) (keys : List String) : Run :=
  let r := downloadLoop w client bucket 0 keys 0
  { trace := r.1 ++ [.stderr (downloadedLine r.2)], exit := none }

/-- The function literal `cmdUpload` runs for the path at position `i` (lines 212-228). -/
def uploadOne (w : World) (client : S3Client) (bucket : String) (i : Nat) (p : String)
    (count : Nat) : List Event × Nat × GoError :=
  match w.osOpen i p with
  | .error err => ([.osOpen p], count, some ("error opening file: " ++ err))
  | .ok f =>
    let key := pathBase p
    match w.clientUpload client i bucket key f with
    | some err =>
      ([.osOpen p, .clientUpload bucket key f], count, some ("error uploading file: " ++ err))
    | none => ([.osOpen p, .clientUpload bucket key f], count + 1, none)

/-- The `for` loop of `cmdUpload` from position `i` on, with what follows it: on an error the
line of the item, `printUploaded()` and `os.Exit(1)`, which skips the deferred call; at the
end of the paths the deferred `printUploaded`. -/
def uploadLoop (w : World) (client : S3Client) (bucket : String) :
    Nat → List String → Nat → Run
  | _, [], count => { trace := [.stderr (uploadedLine count)], exit := none }
  | i, p :: paths, count =>
    match uploadOne w client bucket i p count with
    | (evs, count, some err) =>
      { trace := evs ++ [.stderr (itemErrorLine p err), .stderr (uploadedLine count)],
        exit := some 1 }
    | (evs, count, none) =>
      let r := uploadLoop w client bucket (i + 1) paths count
      { trace := evs ++ r.trace, exit := r.exit }

/-- Handler `cmdUpload` (lines 204-234): the loop from the first path with the counter at 0. -/
def cmdUpload (w : World) (client : S3Client) (bucket : String) (paths : List String) : Run :=
  uploadLoop w client bucket 0 paths 0

/-- Handler `cmdRead` (lines 236-248): the object is opened and copied to standard output;
either failure is reported and ends the process with code 1. -/
def cmdRead (w : World) (client : S3Client) (bucket key : String) : Run :=
  match w.clientOpen client 0 bucket key with
  | .error err =>
    { trace := [.clientOpen bucket key,
        .stderr ("[" ++ key ++ "] error opening object: " ++ err ++ "\n")],
      exit := some 1 }
  | .ok r =>
    match w.copyStdout r with
    | some err =>
      { trace := [.clientOpen bucket key, .copyStdout r,
          .stderr ("[" ++ key ++ "] error reading object: " ++ err ++ "\n")],
        exit := some 1 }
    | none => { trace := [.clientOpen bucket key, .copyStdout r], exit := none }

/-- Handler `cmdWrite` (lines 250-255): standard input is uploaded under the key. -/
def cmdWrite (w : World) (client : S3Client) (bucket key : String) : Run :=
  match w.clientUpload client 0 bucket key w.stdin with
  | some err =>
    { trace := [.clientUpload bucket key w.stdin,
        .stderr ("[" ++ key ++ "] error writing object: " ++ err ++ "\n")],
      exit := some 1 }
  | none => { trace := [.clientUpload bucket key w.stdin], exit := none }

/-- The function literal `cmdRm` runs for the key at position `i` (lines 265-273). -/
def rmOne (w : World) (client : S3Client) (bucket : String) (i : Nat) (key : String)
    (count : Nat) : List Event × Nat × GoError :=
  match w.clientDelete client i bucket key with
  | some err => ([.clientDelete bucket key], count, some ("error deleting object: " ++ err))
  | none => ([.clientDelete bucket key], count + 1, none)

/-- The `for` loop of `cmdRm` from position `i` on: its trace and the final counter. -/
def rmLoop (w : World) (client : S3Client) (bucket : String) :
    Nat → List String → Nat → List Event × Nat
  | _, [], count => ([], count)
  | i, key :: keys, count =>
    match rmOne w client bucket i key count with
    | (evs, count, some err) =>
      let r := rmLoop w client bucket (i + 1) keys count
      (evs ++ .stderr (itemErrorLine key err) :: r.1, r.2)
    | (evs, count, none) =>
      let r := rmLoop w client bucket (i + 1) keys count
      (evs ++ r.1, r.2)

/-- Handler `cmdRm` (lines 257-277); the deferred `printDeleted` runs when it returns. -/
def cmdRm (w : World) (client : S3Client) (bucket : String) (keys : List String) : Run :=
  let r := rmLoop w client bucket 0 keys 0
  { trace := r.1 ++ [.stderr (deletedLine r.2)], exit := none }

/-- The four flag variables of `main`. -/
structure Flags where
  accessKeyID : String
  secretAccessKey : String
  region : String
  bucket : String
deriving DecidableEq, Repr

/-- Lines 47-61 of `main`: each flag left empty is read from its environment variable. -/
def resolveFlags (w : World) (f : Flags) : Flags :=
  let f := if f.accessKeyID = "" then { f with accessKeyID := Getenv w "ACCESS_KEY_ID" } else f
  let f :=
    if f.secretAccessKey = "" then { f with secretAccessKey := Getenv w "SECRET_ACCESS_KEY" }
    else f
  let f := if f.region = "" then { f with region := Getenv w "REGION" } else f
  let f := if f.bucket = "" then { f with bucket := Getenv w "BUCKET" } else f
  f

/-- Lines 63-71 of `main`: the slice `missing`. -/
def missingFlags (f : Flags) : List String :=
  let missing : List String := []
  let missing := if f.region = "" then missing ++ ["region"] else missing
  let missing := if f.bucket = "" then missing ++ ["bucket"] else missing
  missing

/-- A diagnostic followed by `flag.Usage()` and `os.Exit(1)`. -/
def usageExit (diagnostic : String) : Run :=
  { trace := [.stderr diagnostic, .usage], exit := some 1 }

/-- Lines 73-77 of `main`: the run when the check stops the process, `none` otherwise. -/
def checkMissing (f : Flags) : Option Run :=
  let missing := missingFlags f
  if missing.length > 0 then
    some (usageExit ("missing flag: " ++ ", ".intercalate missing ++ "\n\n"))
  else none

/-- Lines 79-88 of `main`: the run when the check stops the process, `none` otherwise. -/
def checkCredentials (f : Flags) : Option Run :=
  if f.accessKeyID ≠ "" ∨ f.secretAccessKey ≠ "" then
    if f.accessKeyID ≠ "" ∧ f.secretAccessKey = "" then
      some { trace := [.stderr "-access-key-id must be used with -secret-access-key"],
             exit := some 1 }
    else if f.accessKeyID = "" ∧ f.secretAccessKey ≠ "" then
      some { trace := [.stderr "-secret-access-key must be used with -access-key-id"],
             exit := some 1 }
    else none
  else none

/-- Lines 90-94 of `main`: the slice `opts`. -/
def clientOptions (f : Flags) : List (S3Client → S3Client) :=
  let opts : List (S3Client → S3Client) := []
  if f.accessKeyID ≠ "" ∧ f.secretAccessKey ≠ "" then
    opts ++ [WithCredentials f.accessKeyID f.secretAccessKey]
  else opts

/-- The `switch` of `main` (lines 101-155) over the positional arguments. -/
def dispatch (w : World) (client : S3Client) (bucket : String) (args : List String) : Run :=
  let cmd := Arg args 0
  if cmd = "ls" then cmdLs w client bucket (Arg args 1)
  else if cmd = "download" then
    let keys := args.drop 1
    if keys.length = 0 then usageExit "missing object name\n\n"
    else cmdDownload w client bucket keys
  else if cmd = "upload" then
    let keys := args.drop 1
    if keys.length = 0 then usageExit "missing file name\n\n"
    else cmdUpload w client bucket keys
  else if cmd = "read" then
    let key := Arg args 1
    if key = "" then usageExit "missing object name\n\n"
    else cmdRead w client bucket key
  else if cmd = "write" then
    let key := Arg args 1
    if key = "" then usageExit "missing object name\n\n"
    else cmdWrite w client bucket key
  else if cmd = "rm" then
    let keys := args.drop 1
    if keys.length = 0 then usageExit "missing object name\n\n"
    else cmdRm w client bucket keys
  else if cmd = "" then usageExit "missing command\n\n"
  else usageExit ("unknown command: " ++ cmd ++ "\n\n")

/-- The function `main` after `flag.Parse()`: the parsed flag values and the positional
arguments are its inputs. -/
def main (w : World) (flags : Flags) (args : List String) : Run :=
  let f := resolveFlags w flags
  match checkMissing f with
  | some r => r
  | none =>
    match checkCredentials f with
    | some r => r
    | none =>
      let client := NewS3Client f.region (clientOptions f)
      let r := dispatch w client f.bucket args
      { trace := .newS3Client client :: r.trace, exit := r.exit }

/-! ### Reading a trace -/

/-- Lines written to standard error, in order. -/
def stderrLines (t : List Event) : List String :=
  t.filterMap (fun e => match e with | .stderr s => some s | _ => none)

/-- Local paths passed to `os.Open`, in order. -/
def osOpens (t : List Event) : List String :=
  t.filterMap (fun e => match e with | .osOpen p => some p | _ => none)

/-- Bucket and key of the calls of `client.Open`, in order. -/
def clientOpens (t : List Event) : List (String × String) :=
  t.filterMap (fun e => match e with | .clientOpen b k => some (b, k) | _ => none)

/-- Bucket and key of the calls of `client.Upload`, in order. -/
def clientUploads (t : List Event) : List (String × String) :=
  t.filterMap (fun e => match e with | .clientUpload b k _ => some (b, k) | _ => none)

/-- Name and content of the local files written by `io.Copy`, in order. -/
def filesWritten (t : List Event) : List (String × List Nat) :=
  t.filterMap (fun e => match e with | .ioCopy dst body => some (dst, body) | _ => none)

/-- A call of one of the four methods of the storage client. -/
def Event.isStorageOp : Event → Bool
  | .clientList _ _ => true
  | .clientOpen _ _ => true
  | .clientUpload _ _ _ => true
  | .clientDelete _ _ => true
  | _ => false

/-- The construction of the storage client. -/
def Event.isNewClient : Event → Bool
  | .newS3Client _ => true
  | _ => false

/-! ### Vocabulary of the specification -/

/-- Resolution of one field as the specification words it: the flag value when it is not
empty, otherwise the value of the environment variable, otherwise the empty string. -/
def resolveField (flagValue : String) (envValue : Option String) : String :=
  if flagValue ≠ "" then flagValue
  else
    match envValue with
    | some v => v
    | none => ""

/-- Exactly one of access key id and secret access key is non-empty. -/
def partialCredentials (f : Flags) : Prop :=
  (f.accessKeyID ≠ "" ∧ f.secretAccessKey = "") ∨ (f.accessKeyID = "" ∧ f.secretAccessKey ≠ "")

instance (f : Flags) : Decidable (partialCredentials f) :=
  inferInstanceAs (Decidable (_ ∨ _))

/-- Outcome of the path at position `i` of `upload`: `none` when it is opened and uploaded,
otherwise the error of the open or of the upload, as reported. -/
def uploadError (w : World) (client : S3Client) (bucket : String) (i : Nat) (p : String) :
    GoError :=
  match w.osOpen i p with
  | .error e => some ("error opening file: " ++ e)
  | .ok f =>
    match w.clientUpload client i bucket (pathBase p) f with
    | some e => some ("error uploading file: " ++ e)
    | none => none

/-- Outcome of the key at position `i` of `download`: `none` when the object is opened, the
file created and the bytes copied, otherwise the error of the step that fails, as reported. -/
def downloadError (w : World) (client : S3Client) (bucket : String) (i : Nat) (key : String) :
    GoError :=
  match w.clientOpen client i bucket key with
  | .error e => some ("error opening object: " ++ e)
  | .ok r =>
    match w.osCreate i key with
    | some e => some ("error opening file for writing: " ++ e)
    | none =>
      match w.ioCopy i key r with
      | some e => some ("error downloading object: " ++ e)
      | none => none

/-- The positional arguments are a usage error: no command, an unknown command, or a
command without its target argument (`download`, `upload`, `rm` without a target; `read`,
`write` without a key). -/
def commandUsageError (args : List String) : Prop :=
  if Arg args 0 = "ls" then False
  else if Arg args 0 = "download" ∨ Arg args 0 = "upload" ∨ Arg args 0 = "rm" then
    args.drop 1 = []
  else if Arg args 0 = "read" ∨ Arg args 0 = "write" then Arg args 1 = ""
  else True

instance (args : List String) : Decidable (commandUsageError args) := by
  unfold commandUsageError
  infer_instance

/-- The invocation is a usage error: region or bucket missing, a partial credential pair,
or a usage error of the positional arguments. -/
def isUsageError (f : Flags) (args : List String) : Prop :=
  f.region = "" ∨ f.bucket = "" ∨ partialCredentials f ∨ commandUsageError args

instance (f : Flags) (args : List String) : Decidable (isUsageError f args) :=
  inferInstanceAs (Decidable (_ ∨ _))

/-- The usage error is the partial credential pair: region and bucket are present and
exactly one of the two credential fields is non-empty. -/
def stopsAtCredentials (f : Flags) : Prop :=
  f.region ≠ "" ∧ f.bucket ≠ "" ∧ partialCredentials f

instance (f : Flags) : Decidable (stopsAtCredentials f) :=
  inferInstanceAs (Decidable (_ ∧ _))

/-- The command `read` fails: the object does not open or the copy to standard output fails. -/
def readFails (w : World) (client : S3Client) (bucket key : String) : Prop :=
  (∃ e, w.clientOpen client 0 bucket key = .error e) ∨
  (∃ r, w.clientOpen client 0 bucket key = .ok r ∧ w.copyStdout r ≠ none)

/-- Some path of `upload` fails, at open or at upload. -/
def someUploadFails (w : World) (client : S3Client) (bucket : String) (paths : List String) :
    Prop :=
  ∃ i q, paths[i]? = some q ∧ uploadError w client bucket i q ≠ none

/-- The client `main` builds from the resolved flags. -/
def mainClient (f : Flags) : S3Client := NewS3Client f.region (clientOptions f)

/-- The cases in which the specification lets the exit code be non-zero: a usage error, a
failure of `read` or `write`, a failing path of `upload`. -/
def specifiedNonZero (w : World) (f : Flags) (args : List String) : Prop :=
  isUsageError f args ∨
  (Arg args 0 = "read" ∧ readFails w (mainClient f) f.bucket (Arg args 1)) ∨
  (Arg args 0 = "write" ∧
    w.clientUpload (mainClient f) 0 f.bucket (Arg args 1) w.stdin ≠ none) ∨
  (Arg args 0 = "upload" ∧ someUploadFails w (mainClient f) f.bucket (args.drop 1))

/-- The command `ls` fails: the listing returns an error. -/
def lsFails (w : World) (f : Flags) (args : List String) : Prop :=
  Arg args 0 = "ls" ∧ ∃ e, w.clientList (mainClient f) f.bucket (Arg args 1) = .error e

/-- A trace without the construction of the client. -/
def withoutNewClient (t : List Event) : List Event := t.filter (fun e => !e.isNewClient)

/-! ### Sample inputs -/

/-- An SDK whose sessions always build, in front of a store of three keys that answers two
keys per page. -/
def sampleSDK : SDK :=
  { NewSession := fun cfg => .ok { config := cfg },
    ListObjects := fun _ => pagedStore (fun _ => ["a", "b", "c"]) (fun _ _ => 2) }

/-- A store over the bucket of the keys `a`, `b` that answers the truncated page `b`, `a`,
out of listing order, to the requests without marker and with marker `a`, and an empty
last page to every other request. -/
def reversedPageStore : Nat → ListObjectsInput → Except String ListObjectsOutput :=
  fun _ loi =>
    if loi.Marker = none ∨ loi.Marker = some "a" then
      .ok { Contents := ["b", "a"], IsTruncated := true }
    else .ok { Contents := [], IsTruncated := false }

/-- An SDK whose sessions always build, in front of the store with the reversed page. -/
def reversedPageSDK : SDK :=
  { NewSession := fun cfg => .ok { config := cfg },
    ListObjects := fun _ => reversedPageStore }

/-- A world in which nothing fails: no variable is set, the bucket lists no key and every
object holds the bytes 1, 2. -/
def quietWorld : World :=
  { environ := fun _ => none, stdin := [], clientList := fun _ _ _ => .ok [],
    clientOpen := fun _ _ _ _ => .ok [1, 2], clientUpload := fun _ _ _ _ _ => none,
    clientDelete := fun _ _ _ _ => none, osOpen := fun _ _ => .ok [7],
    osCreate := fun _ _ => none, ioCopy := fun _ _ _ => none, copyStdout := fun _ => none }

/-- The quiet world, except that the object `b` does not open. -/
def missingObjectWorld : World :=
  { quietWorld with
    clientOpen := fun _ _ _ key => if key = "b" then .error "NoSuchKey" else .ok [1, 2] }

/-- The quiet world, except that the local file `a` does not open. -/
def missingFileWorld : World :=
  { quietWorld with
    osOpen := fun _ p => if p = "a" then .error "no such file" else .ok [7] }

/-- The quiet world, except that the listing fails. -/
def listFailsWorld : World :=
  { quietWorld with clientList := fun _ _ _ => .error "AccessDenied" }

/-! ## Theorems about client.go -/

theorem dropWhile_ne_append_cons (a b : List String) (m : String) (h : m ∉ a) :
    (a ++ m :: b).dropWhile (fun k => k != m) = m :: b := by
  induction a with
  | nil => simp [List.dropWhile]
  | cons x xs ih =>
    have hx : (x != m) = true := by
      have : x ≠ m := fun e => h (by simp [e])
      simpa using this
    have hxs : m ∉ xs := fun e => h (by simp [e])
    simp only [List.cons_append, List.dropWhile_cons, hx, if_true]
    exact ih hxs

theorem keysAfter_some_of_nodup (a b : List String) (m : String)
    (h : (a ++ m :: b).Nodup) : keysAfter (some m) (a ++ m :: b) = b := by
  have hm : m ∉ a := by
    intro hmem
    have := List.nodup_append.mp h
    exact this.2.2 hmem (by simp)
  simp [keysAfter, dropWhile_ne_append_cons a b m hm]

theorem listLoop_pagedStore (contents : String → List String)
    (pageSize : Nat → ListObjectsInput → Nat) (bucket pfx : String)
    (hnodup : (listing contents bucket pfx).Nodup)
    (hpos : ∀ n loi, 0 < pageSize n loi) :
    ∀ (fuel n : Nat) (marker : Option String) (acc rest : List String),
      listing contents bucket pfx = acc ++ rest →
      keysAfter marker (listing contents bucket pfx) = rest →
      rest.length < fuel →
      (listLoop (pagedStore contents pageSize) fuel n
        { Bucket := bucket, Prefix := pfx, Marker := marker } acc).outcome
        = .ok (listing contents bucket pfx) := by
  intro fuel
  induction fuel with
  | zero => intro n marker acc rest _ _ h; omega
  | succ fuel ih =>
    intro n marker acc rest hsplit hafter hfuel
    have hstore : pagedStore contents pageSize n
        { Bucket := bucket, Prefix := pfx, Marker := marker }
        = .ok { Contents := rest.take (pageSize n { Bucket := bucket, Prefix := pfx, Marker := marker }),
                IsTruncated := decide (pageSize n { Bucket := bucket, Prefix := pfx, Marker := marker } < rest.length) } := by
      simp [pagedStore, hafter]
    have h0 := hpos n { Bucket := bucket, Prefix := pfx, Marker := marker }
    generalize pageSize n { Bucket := bucket, Prefix := pfx, Marker := marker } = sz
      at hstore h0
    rw [listLoop, hstore]
    by_cases htr : sz < rest.length
    · have hne : acc ++ rest.take sz ≠ [] := by
        intro h
        have h2 : rest.take sz = [] := (List.append_eq_nil.mp h).2
        have h3 := congrArg List.length h2
        simp only [List.length_take, List.length_nil] at h3
        omega
      obtain ⟨last, hlast⟩ : ∃ last, (acc ++ rest.take sz).getLast? = some last := by
        cases hl : (acc ++ rest.take sz).getLast? with
        | none => exact absurd (List.getLast?_eq_none_iff.mp hl) hne
        | some l => exact ⟨l, rfl⟩
      have hdl : acc ++ rest.take sz = (acc ++ rest.take sz).dropLast ++ [last] := by
        have := List.dropLast_append_getLast? last hlast
        exact this.symm
      have hL : listing contents bucket pfx
          = (acc ++ rest.take sz).dropLast ++ last :: rest.drop sz := by
        calc listing contents bucket pfx = acc ++ rest := hsplit
          _ = (acc ++ rest.take sz) ++ rest.drop sz := by
              rw [List.append_assoc, List.take_append_drop]
          _ = ((acc ++ rest.take sz).dropLast ++ [last]) ++ rest.drop sz := by rw [← hdl]
          _ = _ := by simp
      have hafter2 : keysAfter (some last) (listing contents bucket pfx) = rest.drop sz := by
        have hn := hnodup
        rw [hL] at hn
        rw [hL]
        exact keysAfter_some_of_nodup _ _ _ hn
      have hsplit2 : listing contents bucket pfx = (acc ++ rest.take sz) ++ rest.drop sz := by
        rw [hsplit, List.append_assoc, List.take_append_drop]
      have hlen : (rest.drop sz).length < fuel := by
        simp
        omega
      have := ih (n + 1) (some last) (acc ++ rest.take sz) (rest.drop sz) hsplit2 hafter2 hlen
      simp [htr, hlast, this]
    · have htake : rest.take sz = rest := List.take_of_length_le (by omega)
      simp [htr, htake, hsplit]

theorem pairwise_getLast_ge (objs : List String) (page : List String) (last : String)
    (hord : page.Pairwise (fun a b => rank objs a < rank objs b))
    (hlast : page.getLast? = some last) (k : String) (hk : k ∈ page) :
    rank objs k ≤ rank objs last := by
  have hdl : page.dropLast ++ [last] = page := List.dropLast_append_getLast? last hlast
  rw [← hdl] at hk hord
  rcases List.mem_append.mp hk with h | h
  · have := (List.pairwise_append.mp hord).2.2 k h last (by simp)
    omega
  · simp at h
    subst h
    exact Nat.le_refl _

theorem listLoop_terminates (objs : List String) (bucket pfx : String)
    (store : Nat → ListObjectsInput → Except String ListObjectsOutput)
    (hord : ∀ n marker res,
      store n { Bucket := bucket, Prefix := pfx, Marker := marker } = .ok res →
      res.Contents.Pairwise (fun a b => rank objs a < rank objs b))
    (hpre : ∀ n marker res,
      store n { Bucket := bucket, Prefix := pfx, Marker := marker } = .ok res →
      res.IsTruncated = true → ∃ k, k ∈ res.Contents ∧ strictlyAfter objs marker k) :
    ∀ (fuel n : Nat) (marker : Option String) (keys : List String),
      objs.length - markerRank objs marker < fuel →
      (listLoop store fuel n { Bucket := bucket, Prefix := pfx, Marker := marker } keys).outcome
        ≠ .indexOutOfRange ∧
      (listLoop store fuel n { Bucket := bucket, Prefix := pfx, Marker := marker } keys).outcome
        ≠ .outOfFuel ∧
      (listLoop store fuel n
        { Bucket := bucket, Prefix := pfx, Marker := marker } keys).requests.length
        ≤ objs.length - markerRank objs marker + 1 := by
  intro fuel
  induction fuel with
  | zero => intro n marker keys h; omega
  | succ fuel ih =>
    intro n marker keys hfuel
    rw [listLoop]
    cases hres : store n { Bucket := bucket, Prefix := pfx, Marker := marker } with
    | error e => simp
    | ok res =>
      cases htr : res.IsTruncated with
      | false => simp [htr]
      | true =>
        obtain ⟨k, hk, hkobjs, hkafter⟩ := hpre n marker res hres htr
        have hne : res.Contents ≠ [] := List.ne_nil_of_mem hk
        obtain ⟨last, hlast⟩ : ∃ last, res.Contents.getLast? = some last := by
          cases hl : res.Contents.getLast? with
          | none => exact absurd (List.getLast?_eq_none_iff.mp hl) hne
          | some l => exact ⟨l, rfl⟩
        have hlast2 : (keys ++ res.Contents).getLast? = some last := by
          rw [List.getLast?_append, hlast]
          rfl
        have hle :=
          pairwise_getLast_ge objs res.Contents last (hord n marker res hres) hlast k hk
        have hklt : rank objs k < objs.length := List.indexOf_lt_length.mpr hkobjs
        have hm : markerRank objs marker ≤ rank objs k := by
          cases marker with
          | none => simp [markerRank]
          | some m =>
            have := hkafter m rfl
            simp only [markerRank]
            omega
        have hnew : markerRank objs (some last) = rank objs last + 1 := rfl
        have hdec : objs.length - markerRank objs (some last) < fuel := by omega
        have := ih (n + 1) (some last) (keys ++ res.Contents) hdec
        simp only [htr, Bool.not_true, Bool.false_eq_true, if_false, hlast2]
        refine ⟨this.1, this.2.1, ?_⟩
        have h3 := this.2.2
        simp only [List.length_cons]
        omega

theorem nodup_pairwise_rank (objs : List String) (h : objs.Nodup) :
    objs.Pairwise (fun a b => rank objs a < rank objs b) := by
  rw [List.pairwise_iff_getElem]
  intro i j hi hj hij
  simp only [rank]
  rw [List.indexOf_getElem h i hi, List.indexOf_getElem h j hj]
  exact hij

theorem keysAfter_sublist (marker : Option String) (objs : List String) :
    (keysAfter marker objs).Sublist objs := by
  cases marker with
  | none => exact List.Sublist.refl _
  | some m =>
    exact (List.drop_sublist _ _).trans (List.dropWhile_sublist _)

theorem keysAfter_strictlyAfter (objs : List String) (h : objs.Nodup)
    (marker : Option String) (k : String) (hk : k ∈ keysAfter marker objs) :
    strictlyAfter objs marker k := by
  refine ⟨(keysAfter_sublist marker objs).subset hk, ?_⟩
  intro m hm
  subst hm
  have hsplit := List.takeWhile_append_dropWhile (fun x => x != m) objs
  simp only [keysAfter] at hk
  cases hdw : objs.dropWhile (fun x => x != m) with
  | nil => simp [hdw] at hk
  | cons y ys =>
    have hy : y = m := by
      have := List.head_dropWhile_not (fun x => x != m) objs (by simp [hdw])
      simp [hdw] at this
      exact this
    subst hy
    rw [hdw] at hsplit hk
    simp only [List.drop_one, List.tail_cons] at hk
    have hp := nodup_pairwise_rank objs h
    rw [← hsplit] at hp
    have h2 := (List.pairwise_append.mp hp).2.1
    have h3 := (List.pairwise_cons.mp h2).1 k hk
    rw [hsplit] at h3
    exact h3

theorem pagedStore_pages (contents : String → List String)
    (pageSize : Nat → ListObjectsInput → Nat) (bucket pfx : String)
    (hnodup : (listing contents bucket pfx).Nodup)
    (hpos : ∀ n loi, 0 < pageSize n loi) :
    (∀ n marker res,
      pagedStore contents pageSize n { Bucket := bucket, Prefix := pfx, Marker := marker }
        = .ok res →
      res.Contents.Pairwise
        (fun a b => rank (listing contents bucket pfx) a < rank (listing contents bucket pfx) b)) ∧
    (∀ n marker res,
      pagedStore contents pageSize n { Bucket := bucket, Prefix := pfx, Marker := marker }
        = .ok res →
      res.IsTruncated = true →
      ∃ k, k ∈ res.Contents ∧ strictlyAfter (listing contents bucket pfx) marker k) := by
  constructor
  · intro n marker res hres
    simp only [pagedStore, Except.ok.injEq] at hres
    subst hres
    exact ((nodup_pairwise_rank _ hnodup).sublist (keysAfter_sublist marker _)).sublist
      (List.take_sublist _ _)
  · intro n marker res hres htr
    simp only [pagedStore, Except.ok.injEq] at hres
    subst hres
    simp only [decide_eq_true_eq] at htr
    have h0 := hpos n { Bucket := bucket, Prefix := pfx, Marker := marker }
    generalize pageSize n { Bucket := bucket, Prefix := pfx, Marker := marker } = sz at htr h0
    cases hrest : keysAfter marker (listing contents bucket pfx) with
    | nil => simp [hrest] at htr
    | cons k ks =>
      refine ⟨k, ?_, keysAfter_strictlyAfter _ hnodup marker k (by simp [hrest])⟩
      obtain ⟨sz', rfl⟩ : ∃ sz', sz = sz' + 1 := ⟨sz - 1, by omega⟩
      simp

/-- C1: pagination correctness of `S3Client.List`.  When the session builds and the store
pages the listing (each request answered with the next keys after its marker, flagged
truncated exactly while keys remain), then for every positive page size, varying from
request to request in any way, and every bucket whose keys under the prefix are distinct,
`List` with fuel above the number of keys returns exactly the keys of the listing, in
listing order, each exactly once. -/
theorem List_pagination_correct (sdk : SDK) (c : S3Client) (sess : Session)
    (contents : String → List String) (pageSize : Nat → ListObjectsInput → Nat)
    (bucket pfx : String) (fuel : Nat)
    (hsess : (c.configProvider sdk).1 = .ok sess)
    (hstore : sdk.ListObjects sess = pagedStore contents pageSize)
    (hnodup : (listing contents bucket pfx).Nodup)
    (hpos : ∀ n loi, 0 < pageSize n loi)
    (hfuel : (listing contents bucket pfx).length < fuel) :
    ∃ keys, (S3Client_List sdk c bucket pfx fuel).1.outcome = .ok keys ∧
      keys = listing contents bucket pfx ∧
      keys.length = (listing contents bucket pfx).length ∧
      ∀ k, k ∈ listing contents bucket pfx → keys.count k = 1 := by
  refine ⟨listing contents bucket pfx, ?_, rfl, rfl, ?_⟩
  · have hloop := listLoop_pagedStore contents pageSize bucket pfx hnodup hpos fuel 0 none []
      (listing contents bucket pfx) (by simp) rfl hfuel
    unfold S3Client_List
    cases hcp : c.configProvider sdk with
    | mk r c2 =>
      rw [hcp] at hsess
      simp only at hsess
      subst hsess
      simp only [hstore]
      exact hloop
  · intro k hk
    exact List.count_eq_one_of_mem hnodup hk

/-- Witness of C1: three keys listed two per page. -/
theorem List_pagination_correct_witness :
    ∃ keys, (S3Client_List sampleSDK (NewS3Client "eu-west-1" []) "bkt" "" 4).1.outcome
        = .ok keys ∧
      keys = ["a", "b", "c"] ∧ keys.length = 3 ∧
      ∀ k, k ∈ ["a", "b", "c"] → keys.count k = 1 :=
  List_pagination_correct sampleSDK (NewS3Client "eu-west-1" [])
    { config := { Credentials := none, Region := "eu-west-1", HTTPTimeout := 2 * Hour } }
    (fun _ => ["a", "b", "c"]) (fun _ _ => 2) "bkt" "" 4
    (by rfl) (by rfl) (by decide) (fun _ _ => Nat.succ_pos 1) (by decide)

theorem listLoop_index_nonempty (objs : List String) (bucket pfx : String)
    (store : Nat → ListObjectsInput → Except String ListObjectsOutput)
    (hpre : ∀ n marker res,
      store n { Bucket := bucket, Prefix := pfx, Marker := marker } = .ok res →
      res.IsTruncated = true → ∃ k, k ∈ res.Contents ∧ strictlyAfter objs marker k) :
    ∀ (fuel n : Nat) (marker : Option String) (keys : List String),
      (listLoop store fuel n { Bucket := bucket, Prefix := pfx, Marker := marker } keys).outcome
        ≠ .indexOutOfRange := by
  intro fuel
  induction fuel with
  | zero => intro n marker keys; simp [listLoop]
  | succ fuel ih =>
    intro n marker keys
    rw [listLoop]
    cases hres : store n { Bucket := bucket, Prefix := pfx, Marker := marker } with
    | error e => simp
    | ok res =>
      cases htr : res.IsTruncated with
      | false => simp [htr]
      | true =>
        obtain ⟨k, hk, _⟩ := hpre n marker res hres htr
        have hne : res.Contents ≠ [] := List.ne_nil_of_mem hk
        obtain ⟨last, hlast⟩ : ∃ last, res.Contents.getLast? = some last := by
          cases hl : res.Contents.getLast? with
          | none => exact absurd (List.getLast?_eq_none_iff.mp hl) hne
          | some l => exact ⟨l, rfl⟩
        have hlast2 : (keys ++ res.Contents).getLast? = some last := by
          rw [List.getLast?_append, hlast]
          rfl
        simp only [htr, Bool.not_true, Bool.false_eq_true, if_false, hlast2]
        exact ih (n + 1) (some last) (keys ++ res.Contents)

theorem listLoop_reversedPage :
    ∀ (fuel n : Nat) (marker : Option String) (keys : List String),
      marker = none ∨ marker = some "a" →
      (listLoop reversedPageStore fuel n
        { Bucket := "bkt", Prefix := "", Marker := marker } keys).outcome = .outOfFuel ∧
      (listLoop reversedPageStore fuel n
        { Bucket := "bkt", Prefix := "", Marker := marker } keys).requests.length = fuel := by
  intro fuel
  induction fuel with
  | zero => intro n marker keys _; simp [listLoop]
  | succ fuel ih =>
    intro n marker keys hm
    have hstore : reversedPageStore n { Bucket := "bkt", Prefix := "", Marker := marker }
        = .ok { Contents := ["b", "a"], IsTruncated := true } := by
      simp only [reversedPageStore]
      rw [if_pos hm]
    have hlast : (keys ++ ["b", "a"]).getLast? = some "a" := by
      rw [List.getLast?_append]
      rfl
    have := ih (n + 1) (some "a") (keys ++ ["b", "a"]) (Or.inr rfl)
    rw [listLoop, hstore]
    simp only [Bool.not_true, Bool.false_eq_true, if_false, hlast, List.length_cons]
    exact ⟨this.1, by rw [this.2]⟩

/-- C10, as stated, fails for termination: over the bucket of the keys `a`, `b`, a store
that answers the truncated page `b`, `a` to the requests without marker and with marker `a`
meets the precondition (the key `b` of the page lies strictly after the marker `a`), yet
the marker stays the last key `a`: whatever the fuel, `List` spends it all on page requests
and is still looping. -/
theorem List_reversed_page_counterexample :
    (∀ sess n marker res,
      reversedPageSDK.ListObjects sess n { Bucket := "bkt", Prefix := "", Marker := marker }
        = .ok res →
      res.IsTruncated = true → ∃ k, k ∈ res.Contents ∧ strictlyAfter ["a", "b"] marker k) ∧
    (∀ fuel,
      (S3Client_List reversedPageSDK (NewS3Client "eu-west-1" []) "bkt" "" fuel).1.outcome
        = .outOfFuel ∧
      (S3Client_List reversedPageSDK (NewS3Client "eu-west-1" []) "bkt" ""
        fuel).1.requests.length = fuel) := by
  constructor
  · intro sess n marker res hres htr
    simp only [reversedPageSDK, reversedPageStore] at hres
    by_cases hm : marker = none ∨ marker = some "a"
    · rw [if_pos hm] at hres
      simp only [Except.ok.injEq] at hres
      subst hres
      refine ⟨"b", by simp, by simp, ?_⟩
      intro m hmm
      rcases hm with hm | hm
      · rw [hm] at hmm
        cases hmm
      · rw [hm] at hmm
        simp only [Option.some.injEq] at hmm
        subst hmm
        decide
    · rw [if_neg hm] at hres
      simp only [Except.ok.injEq] at hres
      subst hres
      simp at htr
  · intro fuel
    exact listLoop_reversedPage fuel 0 none [] (Or.inl rfl)

/-- C10, amended: for every finite bucket `objs`, under the precondition that every page the
store flags as truncated contains a key strictly after the marker of its request, the
marker computation of `List` is always applied to a non-empty accumulated list (whatever
the fuel, `List` never stops on the index error); when moreover the pages of the store come
in listing order, `List` with fuel above the number of keys never runs out of fuel and
issues at most one page request more than the bucket has keys. -/
theorem List_terminates_nonempty_index (sdk : SDK) (c : S3Client) (objs : List String)
    (bucket pfx : String)
    (hpre : ∀ sess n marker res,
      sdk.ListObjects sess n { Bucket := bucket, Prefix := pfx, Marker := marker } = .ok res →
      res.IsTruncated = true → ∃ k, k ∈ res.Contents ∧ strictlyAfter objs marker k) :
    (∀ fuel, (S3Client_List sdk c bucket pfx fuel).1.outcome ≠ .indexOutOfRange) ∧
    ((∀ sess n marker res,
        sdk.ListObjects sess n { Bucket := bucket, Prefix := pfx, Marker := marker }
          = .ok res →
        res.Contents.Pairwise (fun a b => rank objs a < rank objs b)) →
      ∀ fuel, objs.length < fuel →
        (S3Client_List sdk c bucket pfx fuel).1.outcome ≠ .indexOutOfRange ∧
        (S3Client_List sdk c bucket pfx fuel).1.outcome ≠ .outOfFuel ∧
        (S3Client_List sdk c bucket pfx fuel).1.requests.length ≤ objs.length + 1) := by
  constructor
  · intro fuel
    unfold S3Client_List
    cases hcp : c.configProvider sdk with
    | mk r c2 =>
      cases r with
      | error e => simp
      | ok sess =>
        exact listLoop_index_nonempty objs bucket pfx (sdk.ListObjects sess) (hpre sess)
          fuel 0 none []
  · intro hord fuel hfuel
    unfold S3Client_List
    cases hcp : c.configProvider sdk with
    | mk r c2 =>
      cases r with
      | error e => simp
      | ok sess =>
        have h := listLoop_terminates objs bucket pfx (sdk.ListObjects sess) (hord sess)
          (hpre sess) fuel 0 none [] (by simp only [markerRank]; omega)
        simp only [markerRank, Nat.sub_zero] at h
        exact h

/-- Witness of C10: three keys listed two per page. -/
theorem List_terminates_nonempty_index_witness :
    (S3Client_List sampleSDK (NewS3Client "eu-west-1" []) "bkt" "" 4).1.outcome
      ≠ .indexOutOfRange ∧
    (S3Client_List sampleSDK (NewS3Client "eu-west-1" []) "bkt" "" 4).1.outcome
      ≠ .outOfFuel ∧
    (S3Client_List sampleSDK (NewS3Client "eu-west-1" []) "bkt" "" 4).1.requests.length
      ≤ 3 + 1 :=
  (List_terminates_nonempty_index sampleSDK (NewS3Client "eu-west-1" []) ["a", "b", "c"]
    "bkt" ""
    (fun _ => (pagedStore_pages (fun _ => ["a", "b", "c"]) (fun _ _ => 2) "bkt" ""
      (by decide) (fun _ _ => Nat.succ_pos 1)).2)).2
    (fun _ => (pagedStore_pages (fun _ => ["a", "b", "c"]) (fun _ _ => 2) "bkt" ""
      (by decide) (fun _ _ => Nat.succ_pos 1)).1)
    4 (by decide)

/-! ## Theorems about main.go -/

theorem resolveFlags_fields (w : World) (flags : Flags) :
    (resolveFlags w flags).accessKeyID
      = resolveField flags.accessKeyID (w.environ "ACCESS_KEY_ID") ∧
    (resolveFlags w flags).secretAccessKey
      = resolveField flags.secretAccessKey (w.environ "SECRET_ACCESS_KEY") ∧
    (resolveFlags w flags).region = resolveField flags.region (w.environ "REGION") ∧
    (resolveFlags w flags).bucket = resolveField flags.bucket (w.environ "BUCKET") := by
  have hget : ∀ o : Option String, o.getD "" = (match o with | some v => v | none => "") := by
    intro o
    cases o <;> rfl
  simp only [resolveFlags, resolveField, Getenv, hget]
  refine ⟨?_, ?_, ?_, ?_⟩ <;> split_ifs <;> simp_all

/-- C7: configuration resolution.  Each of the four fields resolves to the flag value when
that is not empty, otherwise to the value of its environment variable (`ACCESS_KEY_ID`,
`SECRET_ACCESS_KEY`, `REGION`, `BUCKET`), otherwise to the empty string; each field depends
on its own flag and variable only, so that a region given by the environment alone and a
bucket given by its flag alone both resolve. -/
theorem configuration_resolution (w : World) (flags : Flags) :
    ((resolveFlags w flags).accessKeyID
        = resolveField flags.accessKeyID (w.environ "ACCESS_KEY_ID") ∧
      (resolveFlags w flags).secretAccessKey
        = resolveField flags.secretAccessKey (w.environ "SECRET_ACCESS_KEY") ∧
      (resolveFlags w flags).region = resolveField flags.region (w.environ "REGION") ∧
      (resolveFlags w flags).bucket = resolveField flags.bucket (w.environ "BUCKET")) ∧
    (∀ v env, v ≠ "" → resolveField v env = v) ∧
    (∀ v, resolveField "" (some v) = v) ∧
    resolveField "" none = "" ∧
    (∀ r, flags.region = "" → w.environ "REGION" = some r → flags.bucket ≠ "" →
      (resolveFlags w flags).region = r ∧ (resolveFlags w flags).bucket = flags.bucket) := by
  have h := resolveFlags_fields w flags
  refine ⟨h, ?_, ?_, ?_, ?_⟩
  · intro v env hv
    simp [resolveField, hv]
  · intro v
    simp [resolveField]
  · simp [resolveField]
  · intro r hr henv hb
    rw [h.2.2.1, h.2.2.2, hr, henv]
    simp [resolveField, hb]

/-- Witness of C7: the region comes from the environment, the bucket from its flag. -/
theorem configuration_resolution_witness :
    (resolveFlags { quietWorld with environ := fun n => if n = "REGION" then some "eu" else none }
        { accessKeyID := "", secretAccessKey := "", region := "", bucket := "b" }).region = "eu" ∧
    (resolveFlags { quietWorld with environ := fun n => if n = "REGION" then some "eu" else none }
        { accessKeyID := "", secretAccessKey := "", region := "", bucket := "b" }).bucket = "b" :=
  (configuration_resolution
    { quietWorld with environ := fun n => if n = "REGION" then some "eu" else none }
    { accessKeyID := "", secretAccessKey := "", region := "", bucket := "b" }).2.2.2.2
    "eu" rfl (by decide) (by decide)

theorem missingFlags_eq (f : Flags) :
    missingFlags f
      = (if f.region = "" then ["region"] else []) ++ (if f.bucket = "" then ["bucket"] else []) := by
  simp only [missingFlags]
  split_ifs <;> simp

theorem checkMissing_of_missing (f : Flags) (h : f.region = "" ∨ f.bucket = "") :
    checkMissing f
      = some (usageExit ("missing flag: " ++ ", ".intercalate (missingFlags f) ++ "\n\n")) := by
  have hlen : (missingFlags f).length > 0 := by
    rw [missingFlags_eq]
    rcases h with h | h <;> simp [h]
  simp [checkMissing, hlen]

theorem checkMissing_of_present (f : Flags) (hr : f.region ≠ "") (hb : f.bucket ≠ "") :
    checkMissing f = none := by
  simp [checkMissing, missingFlags_eq, hr, hb]

theorem checkCredentials_eq_none_iff (f : Flags) :
    checkCredentials f = none ↔ ¬ partialCredentials f := by
  simp only [checkCredentials, partialCredentials]
  by_cases ha : f.accessKeyID = "" <;> by_cases hs : f.secretAccessKey = "" <;> simp [ha, hs]

theorem checkCredentials_of_partial (f : Flags) (h : partialCredentials f) :
    ∃ d, checkCredentials f = some { trace := [.stderr d], exit := some 1 } ∧
      (d = "-access-key-id must be used with -secret-access-key" ∨
        d = "-secret-access-key must be used with -access-key-id") := by
  simp only [checkCredentials]
  rcases h with ⟨ha, hs⟩ | ⟨ha, hs⟩
  · exact ⟨"-access-key-id must be used with -secret-access-key", by simp [ha, hs], Or.inl rfl⟩
  · exact ⟨"-secret-access-key must be used with -access-key-id", by simp [ha, hs], Or.inr rfl⟩

theorem missing_flag_ne_credentials (s d : String)
    (hd : d = "-access-key-id must be used with -secret-access-key" ∨
      d = "-secret-access-key must be used with -access-key-id") :
    "missing flag: " ++ s ≠ d := by
  intro h
  have h2 := congrArg (fun x => x.data.head?) h
  rcases hd with hd | hd <;> simp [hd] at h2

theorem main_of_missing (w : World) (flags : Flags) (args : List String)
    (h : (resolveFlags w flags).region = "" ∨ (resolveFlags w flags).bucket = "") :
    main w flags args
      = usageExit ("missing flag: "
          ++ ", ".intercalate (missingFlags (resolveFlags w flags)) ++ "\n\n") := by
  simp only [main, checkMissing_of_missing _ h]

theorem main_of_partial (w : World) (flags : Flags) (args : List String)
    (hr : (resolveFlags w flags).region ≠ "") (hb : (resolveFlags w flags).bucket ≠ "")
    (h : partialCredentials (resolveFlags w flags)) :
    ∃ d, main w flags args = { trace := [.stderr d], exit := some 1 } ∧
      (d = "-access-key-id must be used with -secret-access-key" ∨
        d = "-secret-access-key must be used with -access-key-id") := by
  obtain ⟨d, hd, hform⟩ := checkCredentials_of_partial _ h
  exact ⟨d, by simp only [main, checkMissing_of_present _ hr hb, hd], hform⟩

theorem main_of_complete (w : World) (flags : Flags) (args : List String)
    (hr : (resolveFlags w flags).region ≠ "") (hb : (resolveFlags w flags).bucket ≠ "")
    (h : ¬ partialCredentials (resolveFlags w flags)) :
    main w flags args
      = { trace := .newS3Client (NewS3Client (resolveFlags w flags).region
              (clientOptions (resolveFlags w flags)))
            :: (dispatch w (NewS3Client (resolveFlags w flags).region
                  (clientOptions (resolveFlags w flags)))
                (resolveFlags w flags).bucket args).trace,
          exit := (dispatch w (NewS3Client (resolveFlags w flags).region
                  (clientOptions (resolveFlags w flags)))
                (resolveFlags w flags).bucket args).exit } := by
  simp only [main, checkMissing_of_present _ hr hb, (checkCredentials_eq_none_iff _).mpr h]

/-- C8: missing required fields.  `main` stops with the missing-flag usage error (the
diagnostic, the usage text, exit code 1 and nothing else, so no client and no command) if
and only if region or bucket is empty after resolution; a run that opens with a
missing-flag diagnostic has region or bucket empty; the diagnostic names exactly the
missing fields, region before bucket, and both when both are missing. -/
theorem missing_fields_usage_error (w : World) (flags : Flags) (args : List String) :
    (((resolveFlags w flags).region = "" ∨ (resolveFlags w flags).bucket = "") ↔
      main w flags args
        = { trace := [.stderr ("missing flag: "
                ++ ", ".intercalate (missingFlags (resolveFlags w flags)) ++ "\n\n"), .usage],
            exit := some 1 }) ∧
    (∀ s, (main w flags args).trace.head? = some (.stderr ("missing flag: " ++ s)) →
      (resolveFlags w flags).region = "" ∨ (resolveFlags w flags).bucket = "") ∧
    missingFlags (resolveFlags w flags)
      = (if (resolveFlags w flags).region = "" then ["region"] else [])
        ++ (if (resolveFlags w flags).bucket = "" then ["bucket"] else []) ∧
    ((resolveFlags w flags).region = "" → (resolveFlags w flags).bucket = "" →
      main w flags args
        = { trace := [.stderr "missing flag: region, bucket\n\n", .usage], exit := some 1 }) ∧
    ((resolveFlags w flags).region = "" → (resolveFlags w flags).bucket ≠ "" →
      main w flags args
        = { trace := [.stderr "missing flag: region\n\n", .usage], exit := some 1 }) ∧
    ((resolveFlags w flags).region ≠ "" → (resolveFlags w flags).bucket = "" →
      main w flags args
        = { trace := [.stderr "missing flag: bucket\n\n", .usage], exit := some 1 }) := by
  refine ⟨⟨fun h => main_of_missing w flags args h, ?_⟩, ?_, missingFlags_eq _, ?_, ?_, ?_⟩
  · intro hmain
    by_contra hne
    push_neg at hne
    by_cases hp : partialCredentials (resolveFlags w flags)
    · obtain ⟨d, hd, _⟩ := main_of_partial w flags args hne.1 hne.2 hp
      rw [hd] at hmain
      simp at hmain
    · rw [main_of_complete w flags args hne.1 hne.2 hp] at hmain
      simp at hmain
  · intro s hhead
    by_contra hne
    push_neg at hne
    by_cases hp : partialCredentials (resolveFlags w flags)
    · obtain ⟨d, hd, hform⟩ := main_of_partial w flags args hne.1 hne.2 hp
      rw [hd] at hhead
      simp only [List.head?_cons, Option.some.injEq, Event.stderr.injEq] at hhead
      exact missing_flag_ne_credentials s d hform hhead.symm
    · rw [main_of_complete w flags args hne.1 hne.2 hp] at hhead
      simp at hhead
  · intro hr hb
    rw [main_of_missing w flags args (Or.inl hr), missingFlags_eq, hr, hb]
    rfl
  · intro hr hb
    rw [main_of_missing w flags args (Or.inl hr), missingFlags_eq, hr]
    simp only [if_true, if_neg hb]
    rfl
  · intro hr hb
    rw [main_of_missing w flags args (Or.inr hb), missingFlags_eq, hb]
    simp only [if_true, if_neg hr]
    rfl

/-- Witness of C8: neither a flag nor a variable gives region and bucket. -/
theorem missing_fields_usage_error_witness :
    main quietWorld { accessKeyID := "", secretAccessKey := "", region := "", bucket := "" }
        ["ls"]
      = { trace := [.stderr "missing flag: region, bucket\n\n", .usage], exit := some 1 } :=
  (missing_fields_usage_error quietWorld
    { accessKeyID := "", secretAccessKey := "", region := "", bucket := "" } ["ls"]).2.2.2.1
    (by decide) (by decide)

/-- C6: a partial credential pair is rejected before any network call.  When exactly one of
access key id and secret access key is non-empty after resolution, `main` exits with code 1
and its trace holds neither the construction of the storage client nor a call of `List`,
`Open`, `Upload` or `Delete`.  When both or neither are non-empty the credential check lets
the run pass, and with region and bucket present `main` constructs the client. -/
theorem partial_credentials_rejected (w : World) (flags : Flags) (args : List String) :
    (partialCredentials (resolveFlags w flags) →
      (main w flags args).exitCode = 1 ∧
      ∀ e, e ∈ (main w flags args).trace → e.isNewClient = false ∧ e.isStorageOp = false) ∧
    (¬ partialCredentials (resolveFlags w flags) →
      checkCredentials (resolveFlags w flags) = none ∧
      ((resolveFlags w flags).region ≠ "" → (resolveFlags w flags).bucket ≠ "" →
        (main w flags args).trace.head?
          = some (.newS3Client (NewS3Client (resolveFlags w flags).region
              (clientOptions (resolveFlags w flags)))))) := by
  constructor
  · intro hp
    by_cases hm : (resolveFlags w flags).region = "" ∨ (resolveFlags w flags).bucket = ""
    · rw [main_of_missing w flags args hm]
      simp [usageExit, Run.exitCode, Event.isNewClient, Event.isStorageOp]
    · push_neg at hm
      obtain ⟨d, hd, hform⟩ := main_of_partial w flags args hm.1 hm.2 hp
      rw [hd]
      simp [Run.exitCode, Event.isNewClient, Event.isStorageOp]
  · intro hp
    refine ⟨(checkCredentials_eq_none_iff _).mpr hp, ?_⟩
    intro hr hb
    rw [main_of_complete w flags args hr hb hp]
    rfl

/-- Witness of C6: an access key id without a secret access key. -/
theorem partial_credentials_rejected_witness :
    (main quietWorld
        { accessKeyID := "id", secretAccessKey := "", region := "eu", bucket := "b" }
        ["ls"]).exitCode = 1 ∧
    ∀ e, e ∈ (main quietWorld
        { accessKeyID := "id", secretAccessKey := "", region := "eu", bucket := "b" }
        ["ls"]).trace → e.isNewClient = false ∧ e.isStorageOp = false :=
  (partial_credentials_rejected quietWorld
    { accessKeyID := "id", secretAccessKey := "", region := "eu", bucket := "b" } ["ls"]).1
    (by decide)

theorem stderrLines_append (a b : List Event) :
    stderrLines (a ++ b) = stderrLines a ++ stderrLines b := by
  simp [stderrLines, List.filterMap_append]

theorem clientOpens_append (a b : List Event) :
    clientOpens (a ++ b) = clientOpens a ++ clientOpens b := by
  simp [clientOpens, List.filterMap_append]

theorem clientUploads_append (a b : List Event) :
    clientUploads (a ++ b) = clientUploads a ++ clientUploads b := by
  simp [clientUploads, List.filterMap_append]

theorem osOpens_append (a b : List Event) : osOpens (a ++ b) = osOpens a ++ osOpens b := by
  simp [osOpens, List.filterMap_append]

theorem filesWritten_append (a b : List Event) :
    filesWritten (a ++ b) = filesWritten a ++ filesWritten b := by
  simp [filesWritten, List.filterMap_append]

/-- What one iteration of `cmdDownload` does: its error is the outcome of the key, the
counter grows exactly on success, the object is opened once, nothing is written to standard
error, and the file written is named by the key. -/
theorem downloadOne_spec (w : World) (client : S3Client) (bucket : String) (i : Nat)
    (key : String) (count : Nat) :
    (downloadOne w client bucket i key count).2.2 = downloadError w client bucket i key ∧
    (downloadOne w client bucket i key count).2.1
      = (if downloadError w client bucket i key = none then count + 1 else count) ∧
    clientOpens (downloadOne w client bucket i key count).1 = [(bucket, key)] ∧
    stderrLines (downloadOne w client bucket i key count).1 = [] ∧
    filesWritten (downloadOne w client bucket i key count).1
      = (match w.clientOpen client i bucket key with
         | .ok body => if w.osCreate i key = none then [(key, body)] else []
         | .error _ => []) := by
  cases h1 : w.clientOpen client i bucket key with
  | error e => simp [downloadOne, downloadError, h1, clientOpens, stderrLines, filesWritten]
  | ok r =>
    cases h2 : w.osCreate i key with
    | some e => simp [downloadOne, downloadError, h1, h2, clientOpens, stderrLines, filesWritten]
    | none =>
      cases h3 : w.ioCopy i key r with
      | some e =>
        simp [downloadOne, downloadError, h1, h2, h3, clientOpens, stderrLines, filesWritten]
      | none =>
        simp [downloadOne, downloadError, h1, h2, h3, clientOpens, stderrLines, filesWritten]

theorem downloadLoop_spec (w : World) (client : S3Client) (bucket : String) :
    ∀ (keys : List String) (i count : Nat),
      clientOpens (downloadLoop w client bucket i keys count).1
        = keys.map (fun k => (bucket, k)) ∧
      stderrLines (downloadLoop w client bucket i keys count).1
        = (keys.enumFrom i).filterMap
            (fun x => (downloadError w client bucket x.1 x.2).map (itemErrorLine x.2)) ∧
      (downloadLoop w client bucket i keys count).2
        = count + ((keys.enumFrom i).filter
            (fun x => (downloadError w client bucket x.1 x.2).isNone)).length ∧
      filesWritten (downloadLoop w client bucket i keys count).1
        = (keys.enumFrom i).filterMap
            (fun x => match w.clientOpen client x.1 bucket x.2 with
              | .ok body => if w.osCreate x.1 x.2 = none then some (x.2, body) else none
              | .error _ => none) := by
  intro keys
  induction keys with
  | nil => intro i count; simp [downloadLoop, clientOpens, stderrLines, filesWritten]
  | cons key keys ih =>
    intro i count
    obtain ⟨herr, hcount, hopens, hlines, hfiles⟩ := downloadOne_spec w client bucket i key count
    rw [downloadLoop]
    rcases hone : downloadOne w client bucket i key count with ⟨evs, count2, err⟩
    rw [hone] at herr hcount hopens hlines hfiles
    simp only at herr hcount hopens hlines hfiles
    obtain ⟨ih1, ih2, ih3, ih4⟩ := ih (i + 1) count2
    cases err with
    | some msg =>
      have hcount2 : count2 = count := by simp [hcount, ← herr]
      simp only [List.enumFrom_cons, List.map_cons]
      refine ⟨?_, ?_, ?_, ?_⟩
      · rw [clientOpens_append, hopens]
        have : clientOpens (Event.stderr (itemErrorLine key msg)
            :: (downloadLoop w client bucket (i + 1) keys count2).1)
            = clientOpens (downloadLoop w client bucket (i + 1) keys count2).1 := by
          simp [clientOpens]
        rw [this, ih1]
        rfl
      · rw [stderrLines_append, hlines]
        have : stderrLines (Event.stderr (itemErrorLine key msg)
            :: (downloadLoop w client bucket (i + 1) keys count2).1)
            = itemErrorLine key msg
              :: stderrLines (downloadLoop w client bucket (i + 1) keys count2).1 := by
          simp [stderrLines]
        rw [this, ih2]
        simp [← herr]
      · rw [ih3, hcount2]
        simp [← herr]
      · rw [filesWritten_append, hfiles]
        have : filesWritten (Event.stderr (itemErrorLine key msg)
            :: (downloadLoop w client bucket (i + 1) keys count2).1)
            = filesWritten (downloadLoop w client bucket (i + 1) keys count2).1 := by
          simp [filesWritten]
        rw [this, ih4]
        cases hopen : w.clientOpen client i bucket key with
        | error e => simp [List.filterMap_cons, hopen]
        | ok body =>
          by_cases hc : w.osCreate i key = none <;> simp [List.filterMap_cons, hopen, hc]
    | none =>
      have hcount2 : count2 = count + 1 := by simp [hcount, ← herr]
      simp only [List.enumFrom_cons, List.map_cons]
      refine ⟨?_, ?_, ?_, ?_⟩
      · rw [clientOpens_append, hopens, ih1]
        rfl
      · rw [stderrLines_append, hlines, ih2]
        simp [← herr]
      · rw [ih3, hcount2]
        simp [← herr]
        omega
      · rw [filesWritten_append, hfiles, ih4]
        cases hopen : w.clientOpen client i bucket key with
        | error e => simp [List.filterMap_cons, hopen]
        | ok body =>
          by_cases hc : w.osCreate i key = none <;> simp [List.filterMap_cons, hopen, hc]

theorem cmdDownload_trace (w : World) (client : S3Client) (bucket : String)
    (keys : List String) :
    clientOpens (cmdDownload w client bucket keys).trace = keys.map (fun k => (bucket, k)) ∧
    stderrLines (cmdDownload w client bucket keys).trace
      = keys.enum.filterMap
          (fun x => (downloadError w client bucket x.1 x.2).map (itemErrorLine x.2))
        ++ [downloadedLine
            (keys.enum.filter (fun x => (downloadError w client bucket x.1 x.2).isNone)).length] ∧
    (cmdDownload w client bucket keys).trace.getLast?
      = some (.stderr (downloadedLine
          (keys.enum.filter (fun x => (downloadError w client bucket x.1 x.2).isNone)).length)) ∧
    (cmdDownload w client bucket keys).exit = none := by
  obtain ⟨h1, h2, h3, _⟩ := downloadLoop_spec w client bucket keys 0 0
  simp only [cmdDownload, List.enum]
  refine ⟨?_, ?_, ?_, trivial⟩
  · rw [clientOpens_append, h1]
    simp [clientOpens]
  · rw [stderrLines_append, h2, h3]
    simp [stderrLines]
  · rw [h3]
    simp

/-- C3: `cmdDownload` isolates per-key failures.  For every list of keys and every world,
`client.Open` is called once per key, in the given order; the lines on standard error are,
for each failing key in order, the line `[key] error` with the error of that key, followed
by the summary `Downloaded n object(s)` where `n` is the number of keys that succeeded; the
summary is the last event of the run, and the handler returns without `os.Exit`. -/
theorem cmdDownload_isolates_failures (w : World) (client : S3Client) (bucket : String)
    (keys : List String) :
    clientOpens (cmdDownload w client bucket keys).trace = keys.map (fun k => (bucket, k)) ∧
    stderrLines (cmdDownload w client bucket keys).trace
      = keys.enum.filterMap
          (fun x => (downloadError w client bucket x.1 x.2).map
            (fun err => "[" ++ x.2 ++ "] " ++ err ++ "\n"))
        ++ ["Downloaded "
            ++ toString (keys.enum.filter
                (fun x => (downloadError w client bucket x.1 x.2).isNone)).length
            ++ " object(s)\n"] ∧
    (cmdDownload w client bucket keys).trace.getLast?
      = some (.stderr ("Downloaded "
          ++ toString (keys.enum.filter
              (fun x => (downloadError w client bucket x.1 x.2).isNone)).length
          ++ " object(s)\n")) ∧
    (cmdDownload w client bucket keys).exit = none :=
  cmdDownload_trace w client bucket keys

/-- Witness of C3: of the keys `a` and `b`, the object `b` does not open. -/
theorem cmdDownload_isolates_failures_witness :
    clientOpens (cmdDownload missingObjectWorld (NewS3Client "eu" []) "bkt" ["a", "b"]).trace
      = [("bkt", "a"), ("bkt", "b")] ∧
    stderrLines (cmdDownload missingObjectWorld (NewS3Client "eu" []) "bkt" ["a", "b"]).trace
      = ["[b] error opening object: NoSuchKey\n", "Downloaded 1 object(s)\n"] ∧
    filesWritten (cmdDownload missingObjectWorld (NewS3Client "eu" []) "bkt" ["a", "b"]).trace
      = [("a", [1, 2])] :=
  ⟨(cmdDownload_isolates_failures missingObjectWorld (NewS3Client "eu" []) "bkt"
      ["a", "b"]).1.trans (by decide),
   (cmdDownload_isolates_failures missingObjectWorld (NewS3Client "eu" []) "bkt"
      ["a", "b"]).2.1.trans (by decide),
   by decide⟩

/-- C5, as stated, fails: the object `a/b` is written to the local file `a/b`, while the
base name of the key is `b`. -/
theorem download_base_name_counterexample :
    filesWritten (cmdDownload quietWorld (NewS3Client "eu" []) "bkt" ["a/b"]).trace
      = [("a/b", [1, 2])] ∧
    pathBase "a/b" = "b" ∧
    ¬ (∀ f, f ∈ filesWritten (cmdDownload quietWorld (NewS3Client "eu" []) "bkt" ["a/b"]).trace →
        f.1 = pathBase "a/b") := by
  refine ⟨by decide, by decide, ?_⟩
  intro h
  exact absurd (h ("a/b", [1, 2]) (by decide)) (by decide)

/-- C5, amended: for every key, the download command writes the bytes of the object to a
local file whose name is the key itself.  The files written are, in the order of the keys,
one per key whose object opens and whose file is created, named by the full key and
holding the bytes the object was opened with. -/
theorem cmdDownload_writes_file_named_by_key (w : World) (client : S3Client) (bucket : String)
    (keys : List String) :
    filesWritten (cmdDownload w client bucket keys).trace
      = keys.enum.filterMap
          (fun x => match w.clientOpen client x.1 bucket x.2 with
            | .ok body => if w.osCreate x.1 x.2 = none then some (x.2, body) else none
            | .error _ => none) := by
  obtain ⟨_, _, _, h4⟩ := downloadLoop_spec w client bucket keys 0 0
  simp only [cmdDownload, List.enum]
  rw [filesWritten_append, h4]
  simp [filesWritten]

/-- Witness of C5: the object `a/b` is written to the local file `a/b`. -/
theorem cmdDownload_writes_file_named_by_key_witness :
    filesWritten (cmdDownload quietWorld (NewS3Client "eu" []) "bkt" ["a/b", "c"]).trace
      = [("a/b", [1, 2]), ("c", [1, 2])] :=
  (cmdDownload_writes_file_named_by_key quietWorld (NewS3Client "eu" []) "bkt"
    ["a/b", "c"]).trans (by decide)

theorem uploadOne_of_ok (w : World) (client : S3Client) (bucket : String) (i : Nat)
    (p : String) (count : Nat) (h : uploadError w client bucket i p = none) :
    ∃ f, uploadOne w client bucket i p count
      = ([.osOpen p, .clientUpload bucket (pathBase p) f], count + 1, none) := by
  cases h1 : w.osOpen i p with
  | error e => simp [uploadError, h1] at h
  | ok f =>
    cases h2 : w.clientUpload client i bucket (pathBase p) f with
    | some e => simp [uploadError, h1, h2] at h
    | none => exact ⟨f, by simp [uploadOne, h1, h2]⟩

theorem uploadOne_of_error (w : World) (client : S3Client) (bucket : String) (i : Nat)
    (p : String) (count : Nat) (msg : String)
    (h : uploadError w client bucket i p = some msg) :
    ∃ evs, uploadOne w client bucket i p count = (evs, count, some msg) ∧
      osOpens evs = [p] ∧ stderrLines evs = [] ∧
      clientUploads evs
        = (match w.osOpen i p with
           | .ok _ => [(bucket, pathBase p)]
           | .error _ => []) := by
  cases h1 : w.osOpen i p with
  | error e =>
    simp only [uploadError, h1, Option.some.injEq] at h
    exact ⟨[.osOpen p], by simp [uploadOne, h1, h], by simp [osOpens], by simp [stderrLines],
      by simp [clientUploads]⟩
  | ok f =>
    cases h2 : w.clientUpload client i bucket (pathBase p) f with
    | some e =>
      simp only [uploadError, h1, h2, Option.some.injEq] at h
      exact ⟨[.osOpen p, .clientUpload bucket (pathBase p) f],
        by simp [uploadOne, h1, h2, h], by simp [osOpens], by simp [stderrLines],
        by simp [clientUploads]⟩
    | none => simp [uploadError, h1, h2] at h

theorem uploadLoop_first_failure (w : World) (client : S3Client) (bucket : String)
    (p : String) (later : List String) (msg : String) :
    ∀ (done : List String) (i count : Nat),
      (∀ j q, done[j]? = some q → uploadError w client bucket (i + j) q = none) →
      uploadError w client bucket (i + done.length) p = some msg →
      osOpens (uploadLoop w client bucket i (done ++ p :: later) count).trace = done ++ [p] ∧
      clientUploads (uploadLoop w client bucket i (done ++ p :: later) count).trace
        = done.map (fun q => (bucket, pathBase q))
          ++ (match w.osOpen (i + done.length) p with
              | .ok _ => [(bucket, pathBase p)]
              | .error _ => []) ∧
      stderrLines (uploadLoop w client bucket i (done ++ p :: later) count).trace
        = [itemErrorLine p msg, uploadedLine (count + done.length)] ∧
      (uploadLoop w client bucket i (done ++ p :: later) count).exit = some 1 := by
  intro done
  induction done with
  | nil =>
    intro i count _ hfail
    obtain ⟨evs, hone, ho, hl, hu⟩ := uploadOne_of_error w client bucket i p count msg
      (by simpa using hfail)
    simp only [List.nil_append, uploadLoop, hone, List.length_nil, Nat.add_zero, List.map_nil]
    refine ⟨?_, ?_, ?_, trivial⟩
    · rw [osOpens_append, ho]
      simp [osOpens]
    · rw [clientUploads_append, hu]
      simp [clientUploads]
    · rw [stderrLines_append, hl]
      simp [stderrLines]
  | cons q qs ih =>
    intro i count hdone hfail
    obtain ⟨f, hone⟩ := uploadOne_of_ok w client bucket i q count
      (by simpa using hdone 0 q (by simp))
    have hdone2 : ∀ j r, qs[j]? = some r → uploadError w client bucket (i + 1 + j) r = none := by
      intro j r hj
      have := hdone (j + 1) r (by simpa using hj)
      rw [show i + 1 + j = i + (j + 1) by omega]
      exact this
    have hfail2 : uploadError w client bucket (i + 1 + qs.length) p = some msg := by
      rw [show i + 1 + qs.length = i + (q :: qs).length by simp; omega]
      exact hfail
    obtain ⟨ih1, ih2, ih3, ih4⟩ := ih (i + 1) (count + 1) hdone2 hfail2
    simp only [List.cons_append, uploadLoop, hone]
    rw [show i + 1 + qs.length = i + (q :: qs).length by simp; omega] at ih2
    rw [show count + 1 + qs.length = count + (q :: qs).length by simp; omega] at ih3
    refine ⟨?_, ?_, ?_, ih4⟩
    · simp only [osOpens] at ih1 ⊢
      simp [ih1]
    · simp only [clientUploads] at ih2 ⊢
      simp [ih2]
    · simp only [stderrLines] at ih3 ⊢
      simp [ih3]

/-- C2: `cmdUpload` aborts on the first failing path.  When the paths before `p` are
opened and uploaded and `p` fails (open or upload) with message `msg`, whatever follows `p`:
the paths opened are those up to `p` and no later one, the uploads are those of the paths
before `p` and of `p` itself when it opened, the lines on standard error are the one error
line `[p] msg` and then the one summary `Uploaded n file(s)` with `n` the number of paths
before `p`, and the handler ends in `os.Exit(1)`. -/
theorem cmdUpload_aborts_on_first_failure (w : World) (client : S3Client) (bucket : String)
    (done : List String) (p : String) (later : List String) (msg : String)
    (hdone : ∀ j q, done[j]? = some q → uploadError w client bucket j q = none)
    (hfail : uploadError w client bucket done.length p = some msg) :
    osOpens (cmdUpload w client bucket (done ++ p :: later)).trace = done ++ [p] ∧
    clientUploads (cmdUpload w client bucket (done ++ p :: later)).trace
      = done.map (fun q => (bucket, pathBase q))
        ++ (match w.osOpen done.length p with
            | .ok _ => [(bucket, pathBase p)]
            | .error _ => []) ∧
    stderrLines (cmdUpload w client bucket (done ++ p :: later)).trace
      = ["[" ++ p ++ "] " ++ msg ++ "\n",
         "Uploaded " ++ toString done.length ++ " file(s)\n"] ∧
    (cmdUpload w client bucket (done ++ p :: later)).exit = some 1 ∧
    (cmdUpload w client bucket (done ++ p :: later)).exitCode = 1 := by
  have h := uploadLoop_first_failure w client bucket p later msg done 0 0
    (by simpa using hdone) (by simpa using hfail)
  simp only [Nat.zero_add] at h
  refine ⟨h.1, h.2.1, h.2.2.1, h.2.2.2, ?_⟩
  simp [Run.exitCode, cmdUpload, h.2.2.2]

/-- Witness of C2: of the paths `a` and `b`, the file `a` does not open. -/
theorem cmdUpload_aborts_on_first_failure_witness :
    osOpens (cmdUpload missingFileWorld (NewS3Client "eu" []) "bkt" ["a", "b"]).trace = ["a"] ∧
    clientUploads (cmdUpload missingFileWorld (NewS3Client "eu" []) "bkt" ["a", "b"]).trace
      = [] ∧
    stderrLines (cmdUpload missingFileWorld (NewS3Client "eu" []) "bkt" ["a", "b"]).trace
      = ["[a] error opening file: no such file\n", "Uploaded 0 file(s)\n"] ∧
    (cmdUpload missingFileWorld (NewS3Client "eu" []) "bkt" ["a", "b"]).exit = some 1 ∧
    (cmdUpload missingFileWorld (NewS3Client "eu" []) "bkt" ["a", "b"]).exitCode = 1 :=
  cmdUpload_aborts_on_first_failure missingFileWorld (NewS3Client "eu" []) "bkt" [] "a" ["b"]
    "error opening file: no such file" (by simp) (by decide)

theorem uploadLoop_exit (w : World) (client : S3Client) (bucket : String) :
    ∀ (paths : List String) (i count : Nat),
      ((uploadLoop w client bucket i paths count).exit = none ∨
        (uploadLoop w client bucket i paths count).exit = some 1) ∧
      ((uploadLoop w client bucket i paths count).exit = some 1 ↔
        ∃ j q, paths[j]? = some q ∧ uploadError w client bucket (i + j) q ≠ none) := by
  intro paths
  induction paths with
  | nil => intro i count; simp [uploadLoop]
  | cons p ps ih =>
    intro i count
    cases herr : uploadError w client bucket i p with
    | some msg =>
      obtain ⟨evs, hone, _, _, _⟩ := uploadOne_of_error w client bucket i p count msg herr
      simp only [uploadLoop, hone]
      exact ⟨Or.inr trivial, fun _ => ⟨0, p, by simp, by simp [herr]⟩, fun _ => trivial⟩
    | none =>
      obtain ⟨f, hone⟩ := uploadOne_of_ok w client bucket i p count herr
      obtain ⟨ih1, ih2⟩ := ih (i + 1) (count + 1)
      simp only [uploadLoop, hone]
      refine ⟨ih1, ?_⟩
      rw [ih2]
      constructor
      · rintro ⟨j, q, hj, hq⟩
        exact ⟨j + 1, q, by simpa using hj,
          by rw [show i + (j + 1) = i + 1 + j by omega]; exact hq⟩
      · rintro ⟨j, q, hj, hq⟩
        cases j with
        | zero =>
          simp only [List.getElem?_cons_zero, Option.some.injEq] at hj
          subst hj
          simp [herr] at hq
        | succ j =>
          exact ⟨j, q, by simpa using hj,
            by rw [show i + 1 + j = i + (j + 1) by omega]; exact hq⟩

theorem commandUsageError_dispatch (w : World) (client : S3Client) (bucket : String)
    (args : List String) (h : commandUsageError args) :
    ∃ d, dispatch w client bucket args = usageExit d := by
  unfold commandUsageError at h
  unfold dispatch
  by_cases h1 : Arg args 0 = "ls"
  · rw [if_pos h1] at h
    exact absurd h id
  rw [if_neg h1] at h ⊢
  by_cases h2 : Arg args 0 = "download"
  · rw [if_pos (Or.inl h2)] at h
    rw [if_pos h2]
    exact ⟨"missing object name\n\n", by simp only [h, List.length_nil, if_true]⟩
  rw [if_neg h2]
  by_cases h3 : Arg args 0 = "upload"
  · rw [if_pos (Or.inr (Or.inl h3))] at h
    rw [if_pos h3]
    exact ⟨"missing file name\n\n", by simp only [h, List.length_nil, if_true]⟩
  rw [if_neg h3]
  by_cases h6 : Arg args 0 = "rm"
  · rw [if_pos (Or.inr (Or.inr h6))] at h
    have h4 : ¬ Arg args 0 = "read" := by rw [h6]; decide
    have h5 : ¬ Arg args 0 = "write" := by rw [h6]; decide
    rw [if_neg h4, if_neg h5, if_pos h6]
    exact ⟨"missing object name\n\n", by simp only [h, List.length_nil, if_true]⟩
  rw [if_neg (by simp only [h2, h3, h6, or_self, not_false_eq_true])] at h
  by_cases h4 : Arg args 0 = "read"
  · rw [if_pos (Or.inl h4)] at h
    rw [if_pos h4]
    exact ⟨"missing object name\n\n", by simp only [h, if_true]⟩
  rw [if_neg h4]
  by_cases h5 : Arg args 0 = "write"
  · rw [if_pos (Or.inr h5)] at h
    rw [if_pos h5]
    exact ⟨"missing object name\n\n", by simp only [h, if_true]⟩
  rw [if_neg h5, if_neg h6]
  by_cases h7 : Arg args 0 = ""
  · exact ⟨"missing command\n\n", by rw [if_pos h7]⟩
  · exact ⟨"unknown command: " ++ Arg args 0 ++ "\n\n", by rw [if_neg h7]⟩

theorem dispatch_of_command (w : World) (client : S3Client) (bucket : String)
    (args : List String) (h : ¬ commandUsageError args) :
    (Arg args 0 = "ls" ∧ dispatch w client bucket args = cmdLs w client bucket (Arg args 1)) ∨
    (Arg args 0 = "download" ∧
      dispatch w client bucket args = cmdDownload w client bucket (args.drop 1)) ∨
    (Arg args 0 = "upload" ∧
      dispatch w client bucket args = cmdUpload w client bucket (args.drop 1)) ∨
    (Arg args 0 = "read" ∧
      dispatch w client bucket args = cmdRead w client bucket (Arg args 1)) ∨
    (Arg args 0 = "write" ∧
      dispatch w client bucket args = cmdWrite w client bucket (Arg args 1)) ∨
    (Arg args 0 = "rm" ∧ dispatch w client bucket args = cmdRm w client bucket (args.drop 1)) := by
  unfold commandUsageError at h
  unfold dispatch
  by_cases h1 : Arg args 0 = "ls"
  · exact Or.inl ⟨h1, by rw [if_pos h1]⟩
  rw [if_neg h1] at h ⊢
  by_cases h2 : Arg args 0 = "download"
  · rw [if_pos (Or.inl h2)] at h
    have hlen : ¬ (args.drop 1).length = 0 := fun e => h (List.length_eq_zero.mp e)
    exact Or.inr (Or.inl ⟨h2, by rw [if_pos h2]; simp only [hlen, if_false]⟩)
  rw [if_neg h2]
  by_cases h3 : Arg args 0 = "upload"
  · rw [if_pos (Or.inr (Or.inl h3))] at h
    have hlen : ¬ (args.drop 1).length = 0 := fun e => h (List.length_eq_zero.mp e)
    exact Or.inr (Or.inr (Or.inl ⟨h3, by rw [if_pos h3]; simp only [hlen, if_false]⟩))
  rw [if_neg h3]
  by_cases h6 : Arg args 0 = "rm"
  · rw [if_pos (Or.inr (Or.inr h6))] at h
    have hlen : ¬ (args.drop 1).length = 0 := fun e => h (List.length_eq_zero.mp e)
    have h4 : ¬ Arg args 0 = "read" := by rw [h6]; decide
    have h5 : ¬ Arg args 0 = "write" := by rw [h6]; decide
    exact Or.inr (Or.inr (Or.inr (Or.inr (Or.inr
      ⟨h6, by rw [if_neg h4, if_neg h5, if_pos h6]; simp only [hlen, if_false]⟩))))
  rw [if_neg (by simp only [h2, h3, h6, or_self, not_false_eq_true])] at h
  by_cases h4 : Arg args 0 = "read"
  · rw [if_pos (Or.inl h4)] at h
    exact Or.inr (Or.inr (Or.inr (Or.inl ⟨h4, by rw [if_pos h4]; simp only [h, if_false]⟩)))
  rw [if_neg h4]
  by_cases h5 : Arg args 0 = "write"
  · rw [if_pos (Or.inr h5)] at h
    exact Or.inr (Or.inr (Or.inr (Or.inr (Or.inl
      ⟨h5, by rw [if_pos h5]; simp only [h, if_false]⟩))))
  · rw [if_neg (by simp only [h4, h5, or_self, not_false_eq_true])] at h
    exact absurd trivial h

theorem cmdLs_exit (w : World) (client : S3Client) (bucket pfx : String) :
    ((cmdLs w client bucket pfx).exit = none ∨ (cmdLs w client bucket pfx).exit = some 1) ∧
    ((cmdLs w client bucket pfx).exit = some 1 ↔
      ∃ e, w.clientList client bucket pfx = .error e) := by
  unfold cmdLs
  cases w.clientList client bucket pfx <;> simp

theorem cmdRead_exit (w : World) (client : S3Client) (bucket key : String) :
    ((cmdRead w client bucket key).exit = none ∨ (cmdRead w client bucket key).exit = some 1) ∧
    ((cmdRead w client bucket key).exit = some 1 ↔ readFails w client bucket key) := by
  unfold cmdRead readFails
  cases h1 : w.clientOpen client 0 bucket key with
  | error e => simp
  | ok r => cases h2 : w.copyStdout r <;> simp [h2]

theorem cmdWrite_exit (w : World) (client : S3Client) (bucket key : String) :
    ((cmdWrite w client bucket key).exit = none ∨
      (cmdWrite w client bucket key).exit = some 1) ∧
    ((cmdWrite w client bucket key).exit = some 1 ↔
      w.clientUpload client 0 bucket key w.stdin ≠ none) := by
  unfold cmdWrite
  cases h : w.clientUpload client 0 bucket key w.stdin <;> simp

theorem cmdUpload_exit (w : World) (client : S3Client) (bucket : String)
    (paths : List String) :
    ((cmdUpload w client bucket paths).exit = none ∨
      (cmdUpload w client bucket paths).exit = some 1) ∧
    ((cmdUpload w client bucket paths).exit = some 1 ↔
      someUploadFails w client bucket paths) := by
  have h := uploadLoop_exit w client bucket paths 0 0
  simp only [Nat.zero_add] at h
  exact h

theorem dispatch_exit (w : World) (client : S3Client) (bucket : String)
    (args : List String) (h : ¬ commandUsageError args) :
    ((dispatch w client bucket args).exit = none ∨
      (dispatch w client bucket args).exit = some 1) ∧
    ((dispatch w client bucket args).exit = some 1 ↔
      (Arg args 0 = "ls" ∧ ∃ e, w.clientList client bucket (Arg args 1) = .error e) ∨
      (Arg args 0 = "read" ∧ readFails w client bucket (Arg args 1)) ∨
      (Arg args 0 = "write" ∧ w.clientUpload client 0 bucket (Arg args 1) w.stdin ≠ none) ∨
      (Arg args 0 = "upload" ∧ someUploadFails w client bucket (args.drop 1))) := by
  rcases dispatch_of_command w client bucket args h with
    ⟨hc, hd⟩ | ⟨hc, hd⟩ | ⟨hc, hd⟩ | ⟨hc, hd⟩ | ⟨hc, hd⟩ | ⟨hc, hd⟩
  · have := cmdLs_exit w client bucket (Arg args 1)
    rw [hd, hc]
    refine ⟨this.1, ?_⟩
    rw [this.2]
    simp
  · rw [hd, hc]
    simp [cmdDownload]
  · have := cmdUpload_exit w client bucket (args.drop 1)
    rw [hd, hc]
    refine ⟨this.1, ?_⟩
    rw [this.2]
    simp
  · have := cmdRead_exit w client bucket (Arg args 1)
    rw [hd, hc]
    refine ⟨this.1, ?_⟩
    rw [this.2]
    simp
  · have := cmdWrite_exit w client bucket (Arg args 1)
    rw [hd, hc]
    refine ⟨this.1, ?_⟩
    rw [this.2]
    simp
  · rw [hd, hc]
    simp [cmdRm]

/-- C4, as stated, fails: `ls` on a bucket whose listing fails exits with code 1, although
the invocation is no usage error and the command is none of `read`, `write`, `upload`. -/
theorem exit_code_ls_counterexample :
    (main listFailsWorld
        { accessKeyID := "", secretAccessKey := "", region := "eu", bucket := "b" }
        ["ls"]).exitCode = 1 ∧
    ¬ specifiedNonZero listFailsWorld
        (resolveFlags listFailsWorld
          { accessKeyID := "", secretAccessKey := "", region := "eu", bucket := "b" })
        ["ls"] := by
  refine ⟨by decide, ?_⟩
  rintro (h | ⟨h, _⟩ | ⟨h, _⟩ | ⟨h, _⟩)
  · exact absurd h (by decide)
  · exact absurd h (by decide)
  · exact absurd h (by decide)
  · exact absurd h (by decide)

/-- C4, amended: for every invocation (arguments, environment and results of the storage
operations) the exit code is non-zero exactly in these cases: a usage error, a failure of
`ls` (the listing returns an error), a failure of `read` or `write`, or a failing path of
`upload`.  In every other case, whatever the command and whatever fails, the exit code is
zero; a non-zero exit code is 1. -/
theorem exit_code_cases (w : World) (flags : Flags) (args : List String) :
    ((main w flags args).exitCode = 0 ∨ (main w flags args).exitCode = 1) ∧
    ((main w flags args).exitCode ≠ 0 ↔
      specifiedNonZero w (resolveFlags w flags) args ∨ lsFails w (resolveFlags w flags) args) := by
  by_cases hm : (resolveFlags w flags).region = "" ∨ (resolveFlags w flags).bucket = ""
  · rw [main_of_missing w flags args hm]
    have hu : isUsageError (resolveFlags w flags) args := by
      rcases hm with hm | hm
      · exact Or.inl hm
      · exact Or.inr (Or.inl hm)
    simp [usageExit, Run.exitCode, specifiedNonZero, hu]
  push_neg at hm
  by_cases hp : partialCredentials (resolveFlags w flags)
  · obtain ⟨d, hd, hform⟩ := main_of_partial w flags args hm.1 hm.2 hp
    rw [hd]
    have hu : isUsageError (resolveFlags w flags) args := Or.inr (Or.inr (Or.inl hp))
    simp [Run.exitCode, specifiedNonZero, hu]
  rw [main_of_complete w flags args hm.1 hm.2 hp]
  by_cases hu : commandUsageError args
  · obtain ⟨d, hd⟩ := commandUsageError_dispatch w
      (NewS3Client (resolveFlags w flags).region (clientOptions (resolveFlags w flags)))
      (resolveFlags w flags).bucket args hu
    rw [hd]
    have hu2 : isUsageError (resolveFlags w flags) args := Or.inr (Or.inr (Or.inr hu))
    simp [usageExit, Run.exitCode, specifiedNonZero, hu2]
  · have hnu : ¬ isUsageError (resolveFlags w flags) args := by
      rintro (h | h | h | h)
      · exact hm.1 h
      · exact hm.2 h
      · exact hp h
      · exact hu h
    obtain ⟨h01, hiff⟩ := dispatch_exit w
      (NewS3Client (resolveFlags w flags).region (clientOptions (resolveFlags w flags)))
      (resolveFlags w flags).bucket args hu
    have hrhs : (specifiedNonZero w (resolveFlags w flags) args
        ∨ lsFails w (resolveFlags w flags) args) ↔
        (dispatch w
          (NewS3Client (resolveFlags w flags).region (clientOptions (resolveFlags w flags)))
          (resolveFlags w flags).bucket args).exit = some 1 := by
      rw [hiff]
      constructor
      · rintro ((hu2 | hr | hw | hup) | hl)
        · exact absurd hu2 hnu
        · exact Or.inr (Or.inl hr)
        · exact Or.inr (Or.inr (Or.inl hw))
        · exact Or.inr (Or.inr (Or.inr hup))
        · exact Or.inl hl
      · rintro (hl | hr | hw | hup)
        · exact Or.inr hl
        · exact Or.inl (Or.inr (Or.inl hr))
        · exact Or.inl (Or.inr (Or.inr (Or.inl hw)))
        · exact Or.inl (Or.inr (Or.inr (Or.inr hup)))
    rw [hrhs]
    rcases h01 with h | h
    · simp [Run.exitCode, h]
    · simp [Run.exitCode, h]

/-- Witness of C4: `ls` on a bucket whose listing fails exits with a non-zero code. -/
theorem exit_code_cases_witness :
    (main listFailsWorld
        { accessKeyID := "", secretAccessKey := "", region := "eu", bucket := "b" }
        ["ls"]).exitCode ≠ 0 :=
  (exit_code_cases listFailsWorld
    { accessKeyID := "", secretAccessKey := "", region := "eu", bucket := "b" } ["ls"]).2.mpr
    (Or.inr ⟨rfl, "AccessDenied", rfl⟩)

/-- C9, as stated, fails: a partial credential pair is reported with a diagnostic and exit
code 1, but the usage text is not printed. -/
theorem usage_text_counterexample :
    isUsageError
      (resolveFlags quietWorld
        { accessKeyID := "id", secretAccessKey := "", region := "eu", bucket := "b" })
      ["ls"] ∧
    main quietWorld
        { accessKeyID := "id", secretAccessKey := "", region := "eu", bucket := "b" } ["ls"]
      = { trace := [.stderr "-access-key-id must be used with -secret-access-key"],
          exit := some 1 } ∧
    Event.usage ∉ (main quietWorld
        { accessKeyID := "id", secretAccessKey := "", region := "eu", bucket := "b" }
        ["ls"]).trace := by
  refine ⟨by decide, by decide, by decide⟩

/-- C9, amended: every usage error (missing region or bucket, a partial credential pair,
a missing command, an unknown command, a command without its target argument) ends with
exit code 1 and calls no operation of the storage client; apart from the construction of
the client, the trace is one diagnostic on standard error followed by the usage text,
except for a partial credential pair with region and bucket present, where it is the
diagnostic alone. -/
theorem usage_errors_reported (w : World) (flags : Flags) (args : List String)
    (h : isUsageError (resolveFlags w flags) args) :
    (main w flags args).exitCode = 1 ∧
    (∀ e, e ∈ (main w flags args).trace → e.isStorageOp = false) ∧
    ∃ d, withoutNewClient (main w flags args).trace
      = (if stopsAtCredentials (resolveFlags w flags) then [.stderr d]
         else [.stderr d, .usage]) := by
  by_cases hm : (resolveFlags w flags).region = "" ∨ (resolveFlags w flags).bucket = ""
  · rw [main_of_missing w flags args hm]
    have hs : ¬ stopsAtCredentials (resolveFlags w flags) := by
      rintro ⟨h1, h2, _⟩
      rcases hm with hm | hm
      · exact h1 hm
      · exact h2 hm
    refine ⟨by simp [usageExit, Run.exitCode],
      by simp [usageExit, Event.isStorageOp],
      ⟨"missing flag: " ++ ", ".intercalate (missingFlags (resolveFlags w flags)) ++ "\n\n",
        ?_⟩⟩
    rw [if_neg hs]
    simp [usageExit, withoutNewClient, Event.isNewClient]
  push_neg at hm
  by_cases hp : partialCredentials (resolveFlags w flags)
  · obtain ⟨d, hd, hform⟩ := main_of_partial w flags args hm.1 hm.2 hp
    rw [hd]
    have hs : stopsAtCredentials (resolveFlags w flags) := ⟨hm.1, hm.2, hp⟩
    refine ⟨by simp [Run.exitCode], by simp [Event.isStorageOp], ⟨d, ?_⟩⟩
    rw [if_pos hs]
    simp [withoutNewClient, Event.isNewClient]
  have hu : commandUsageError args := by
    rcases h with h | h | h | h
    · exact absurd h hm.1
    · exact absurd h hm.2
    · exact absurd h hp
    · exact h
  have hs : ¬ stopsAtCredentials (resolveFlags w flags) := fun hs => hp hs.2.2
  rw [main_of_complete w flags args hm.1 hm.2 hp]
  obtain ⟨d, hd⟩ := commandUsageError_dispatch w
    (NewS3Client (resolveFlags w flags).region (clientOptions (resolveFlags w flags)))
    (resolveFlags w flags).bucket args hu
  rw [hd]
  refine ⟨by simp [usageExit, Run.exitCode], by simp [usageExit, Event.isStorageOp],
    ⟨d, ?_⟩⟩
  rw [if_neg hs]
  simp [usageExit, withoutNewClient, Event.isNewClient]

/-- Witness of C9: an upload without a file name. -/
theorem usage_errors_reported_witness :
    (main quietWorld
        { accessKeyID := "", secretAccessKey := "", region := "eu", bucket := "b" }
        ["upload"]).exitCode = 1 ∧
    (∀ e, e ∈ (main quietWorld
        { accessKeyID := "", secretAccessKey := "", region := "eu", bucket := "b" }
        ["upload"]).trace → e.isStorageOp = false) ∧
    ∃ d, withoutNewClient (main quietWorld
        { accessKeyID := "", secretAccessKey := "", region := "eu", bucket := "b" }
        ["upload"]).trace
      = (if stopsAtCredentials (resolveFlags quietWorld
            { accessKeyID := "", secretAccessKey := "", region := "eu", bucket := "b" })
         then [.stderr d] else [.stderr d, .usage]) :=
  usage_errors_reported quietWorld
    { accessKeyID := "", secretAccessKey := "", region := "eu", bucket := "b" } ["upload"]
    (by decide)

end AwsS3
